import Mathlib

/-!
Shallow embedding of the Mini-DBMS storage engine
(`src/include/StorageEngine.hpp`): the paged store, the LRU buffer
manager and the B+Tree insertion algorithm, together with proofs of the
specification's claims about them.

Page contents are modelled at the level the tree interprets them: a
`BPlusNode` record standing for the 4096-byte page image.  A zero-filled
page (`memset(p, 0, PAGE_SIZE)`) is the node whose boolean field is
`false` and whose integer fields are all `0`.
-/

-- GLOBAL SYSTEM CONFIGURATIONS (StorageEngine.hpp lines 15-17)

def PAGE_SIZE : Nat := 4096

def BUFFER_CAPACITY : Nat := 3

def MAX_KEYS : Nat := 3

-- B+ TREE NODE STRUCTURE (struct BPlusNode, lines 112-119)

/-- Interpreted contents of one 4096-byte page: the `BPlusNode` struct.
`keys` always has length `MAX_KEYS` and `children` length `MAX_KEYS + 1`,
mirroring the fixed C arrays. -/
structure BPlusNode where
  isLeaf : Bool
  numKeys : Nat
  parentPage : Int
  keys : List Int
  children : List Int
  nextLeaf : Int
  deriving DecidableEq, Repr

/-- The node image of a zero-filled page: `memset 0` makes the bool
`false` and every int `0`. -/
def zeroNode : BPlusNode :=
  { isLeaf := false, numKeys := 0, parentPage := 0,
    keys := List.replicate MAX_KEYS 0,
    children := List.replicate (MAX_KEYS + 1) 0,
    nextLeaf := 0 }

instance : Inhabited BPlusNode := ⟨zeroNode⟩

-- BUFFER MANAGER (struct Frame and class BufferManager, lines 49-108)

/-- A RAM slot of the buffer pool: `struct Frame`.  `pageID = -1` means
the frame has never held a page. -/
structure Frame where
  pageID : Int
  dirty : Bool
  data : BPlusNode
  deriving DecidableEq, Repr

instance : Inhabited Frame := ⟨{ pageID := -1, dirty := false, data := zeroNode }⟩

/-- Combined state of the `StorageManager` (the `disk` function: byte
content per page identifier, unwritten pages reading back zero-filled)
and the `BufferManager` (pool, page table, LRU list, page-id counter).
`evictCount` is a ghost counter of how many evictions (full-buffer
victim selections) have been performed; it instruments the model and
influences nothing. -/
structure BufferState where
  disk : Int → BPlusNode
  pool : List Frame
  pageTable : List (Int × Nat)
  lru : List Nat
  nextPageID : Int
  evictCount : Nat

/-- Lookup in the page table (`pageTable.count` / `pageTable[pid]`). -/
def ptLookup (pt : List (Int × Nat)) (p : Int) : Option Nat :=
  (pt.find? (fun e => e.1 == p)).map (fun e => e.2)

/-- Erase a key from the page table (`pageTable.erase`). -/
def ptErase (pt : List (Int × Nat)) (p : Int) : List (Int × Nat) :=
  pt.filter (fun e => !(e.1 == p))

/-- Insert-or-assign into the page table (`pageTable[p] = v`). -/
def ptInsert (pt : List (Int × Nat)) (p : Int) (v : Nat) : List (Int × Nat) :=
  if (ptLookup pt p).isSome then
    pt.map (fun e => if e.1 == p then (p, v) else e)
  else
    (p, v) :: pt

/-- Point update of the disk function (`StorageManager::writeDisk`). -/
def diskWrite (d : Int → BPlusNode) (p : Int) (n : BPlusNode) : Int → BPlusNode :=
  fun q => if q = p then n else d q

/-- `BufferManager::touch`: `lru.remove(idx); lru.push_front(idx)`. -/
def touch (s : BufferState) (idx : Nat) : BufferState :=
  { s with lru := idx :: s.lru.filter (fun j => !(j == idx)) }

/-- `BufferManager::evict`: when fewer than `BUFFER_CAPACITY` frames are
in use, hand out the next unused frame (index = current occupancy);
otherwise flush the LRU victim if dirty, drop its page-table and LRU
entries, and hand out its frame index. -/
def evict (s : BufferState) : BufferState × Nat :=
  if s.lru.length < BUFFER_CAPACITY then (s, s.lru.length)
  else
    let idx := s.lru.getLast?.getD 0
    let fr := s.pool.getD idx default
    let disk1 := if fr.dirty then diskWrite s.disk fr.pageID fr.data else s.disk
    ({ s with disk := disk1,
              pageTable := ptErase s.pageTable fr.pageID,
              lru := s.lru.dropLast,
              evictCount := s.evictCount + 1 }, idx)

/-- `BufferManager::fetchPage`: on a hit just touch the frame; on a miss
evict to obtain a frame, read the page from disk into it (clean), record
it in the page table and touch it. -/
def fetchPage (s : BufferState) (pid : Int) : BufferState :=
  match ptLookup s.pageTable pid with
  | some idx => touch s idx
  | none =>
    let r := evict s
    let s1 := r.1
    let idx := r.2
    let fr : Frame := { pageID := pid, dirty := false, data := s1.disk pid }
    let s2 := { s1 with pool := s1.pool.set idx fr,
                        pageTable := ptInsert s1.pageTable pid idx }
    touch s2 idx

/-- `BufferManager::markDirty`: no-op when the page is not resident. -/
def markDirty (s : BufferState) (pid : Int) : BufferState :=
  match ptLookup s.pageTable pid with
  | some idx =>
    { s with pool := s.pool.modify (fun fr => { fr with dirty := true }) idx }
  | none => s

/-- Read of a resident page's node image through the pointer returned by
`fetchPage` (the frame the page table maps it to). -/
def getPageData (s : BufferState) (pid : Int) : BPlusNode :=
  match ptLookup s.pageTable pid with
  | some idx => (s.pool.getD idx default).data
  | none => zeroNode

/-- Mutation of a resident page's node image through the pointer
returned by `fetchPage`: writes into the frame the page table maps the
page to (a no-op on a non-resident page; every use in the engine follows
a `fetchPage` of the same page, so the page is resident). -/
def setPageData (s : BufferState) (pid : Int) (n : BPlusNode) : BufferState :=
  match ptLookup s.pageTable pid with
  | some idx =>
    { s with pool := s.pool.modify (fun fr => { fr with data := n }) idx }
  | none => s

/-- `BufferManager::allocatePage`: take the next page id, fetch it
(possibly evicting), zero-fill it, mark it dirty, return the id. -/
def allocatePage (s : BufferState) : BufferState × Int :=
  let pid := s.nextPageID
  let s1 := { s with nextPageID := s.nextPageID + 1 }
  let s2 := fetchPage s1 pid
  let s3 := setPageData s2 pid zeroNode
  let s4 := markDirty s3 pid
  (s4, pid)

/-- Logical current content of a page: the frame image while resident,
the disk image otherwise. -/
def pageContent (s : BufferState) (pid : Int) : BPlusNode :=
  match ptLookup s.pageTable pid with
  | some idx => (s.pool.getD idx default).data
  | none => s.disk pid

/-- Dirty flag of the frame a resident page occupies (`false` when the
page is not resident). -/
def frameDirty (s : BufferState) (pid : Int) : Bool :=
  match ptLookup s.pageTable pid with
  | some idx => (s.pool.getD idx default).dirty
  | none => false

/-- State right after `StorageManager` + `BufferManager` construction:
empty (truncated) backing file, `BUFFER_CAPACITY` empty frames, empty
page table and LRU list, page counter at zero. -/
def initBuf : BufferState :=
  { disk := fun _ => zeroNode,
    pool := List.replicate BUFFER_CAPACITY default,
    pageTable := [], lru := [], nextPageID := 0, evictCount := 0 }

-- B+ TREE (class BPlusTree, lines 121-203)

/-- A `BPlusTree` value: its buffer manager plus the `rootPage` field. -/
structure TreeState where
  buf : BufferState
  rootPage : Int

/-- The `BPlusTree` constructor: allocate the root page and initialize
it as an empty leaf with no parent (`parentPage = -1`). -/
def newTree : TreeState :=
  let r := allocatePage initBuf
  let s := fetchPage r.1 r.2
  let node := getPageData s r.2
  let s2 := setPageData s r.2 { node with isLeaf := true, numKeys := 0, parentPage := -1 }
  { buf := s2, rootPage := r.2 }

/-- The scan `while (i < numKeys && key >= keys[i]) i++` of
`BPlusTree::findLeaf`: index of the child pointer to follow. -/
def childIndex (node : BPlusNode) (key : Int) : Nat :=
  ((node.keys.take node.numKeys).takeWhile (fun k => decide (k ≤ key))).length

/-- `BPlusTree::findLeaf`, with explicit fuel standing for the C++ call
stack (the recursion depth never exceeds the tree height, which stays
below the fuel every caller supplies). -/
def findLeaf : Nat → BufferState → Int → Int → BufferState × Int
  | 0, s, currPage, _ => (s, currPage)
  | fuel + 1, s, currPage, key =>
    let s1 := fetchPage s currPage
    let node := getPageData s1 currPage
    if node.isLeaf then (s1, currPage)
    else findLeaf fuel s1 (node.children.getD (childIndex node key) 0) key

/-- The shift-and-insert loop of `BPlusTree::insertIntoLeaf`, entered
with `n = numKeys` (C loop variable `i = n - 1`): shifts keys greater
than the new key one slot right, then writes the new key. -/
def insertShift (keys : List Int) (key : Int) : Nat → List Int
  | 0 => keys.set 0 key
  | n + 1 =>
    if key < keys.getD n 0 then
      insertShift (keys.set (n + 1) (keys.getD n 0)) key n
    else
      keys.set (n + 1) key

/-- Sorting of the overflowed key vector, modelling `std::sort` (which
produces the sorted permutation; on integer lists that list is unique,
so any correct sorting algorithm is extensionally the same). -/
def sortInts (l : List Int) : List Int :=
  List.insertionSort (fun a b => a ≤ b) l

/-- The copy loop `for i in 0..<n: dst[i] = src[off+i]` used by
`BPlusTree::splitLeaf` to distribute the sorted keys. -/
def copyKeys (dst src : List Int) (off : Nat) : Nat → List Int
  | 0 => dst
  | n + 1 => (copyKeys dst src off n).set n (src.getD (off + n) 0)

/-- `BPlusTree::insertIntoParent`: only handles `left == rootPage`
(allocate a new internal root holding the promoted key over the two
children and repoint `rootPage`); otherwise does nothing. -/
def insertIntoParent (t : TreeState) (left key right : Int) : TreeState :=
  if left = t.rootPage then
    let r := allocatePage t.buf
    let newRoot := r.2
    let s := fetchPage r.1 newRoot
    let node := getPageData s newRoot
    let node2 := { node with
                   isLeaf := false,
                   keys := node.keys.set 0 key,
                   children := (node.children.set 0 left).set 1 right,
                   numKeys := 1 }
    let s2 := setPageData s newRoot node2
    { buf := s2, rootPage := newRoot }
  else t

/-- `BPlusTree::splitLeaf`: allocate a sibling leaf, sort the old leaf's
`MAX_KEYS` keys together with the new key, give the first
`mid = (MAX_KEYS+1)/2` to the old leaf and the rest to the sibling, mark
both dirty, and promote the sibling's first key.  Each field store goes
through the page the corresponding C++ pointer designates, in source
order. -/
def splitLeaf (t : TreeState) (oldPageID key : Int) : TreeState :=
  let r := allocatePage t.buf
  let newPageID := r.2
  let s1 := fetchPage r.1 oldPageID
  let s2 := fetchPage s1 newPageID
  let tempKeys := sortInts ((getPageData s2 oldPageID).keys.take MAX_KEYS ++ [key])
  let s3 := setPageData s2 newPageID { (getPageData s2 newPageID) with isLeaf := true }
  let mid := (MAX_KEYS + 1) / 2
  let s4 := setPageData s3 oldPageID { (getPageData s3 oldPageID) with numKeys := mid }
  let s5 := setPageData s4 newPageID
    { (getPageData s4 newPageID) with numKeys := (MAX_KEYS + 1) - mid }
  let s6 := setPageData s5 oldPageID
    { (getPageData s5 oldPageID) with
      keys := copyKeys (getPageData s5 oldPageID).keys tempKeys 0
        (getPageData s5 oldPageID).numKeys }
  let s7 := setPageData s6 newPageID
    { (getPageData s6 newPageID) with
      keys := copyKeys (getPageData s6 newPageID).keys tempKeys mid
        (getPageData s6 newPageID).numKeys }
  let s8 := markDirty s7 oldPageID
  let s9 := markDirty s8 newPageID
  let promoted := (getPageData s9 newPageID).keys.getD 0 0
  insertIntoParent { buf := s9, rootPage := t.rootPage } oldPageID promoted newPageID

/-- `BPlusTree::insertIntoLeaf`: with spare capacity, shift-insert the
key and mark the page dirty; on a full leaf, split. -/
def insertIntoLeaf (t : TreeState) (pageID key : Int) : TreeState :=
  let s := fetchPage t.buf pageID
  let node := getPageData s pageID
  if node.numKeys < MAX_KEYS then
    let node2 := { node with
                   keys := insertShift node.keys key node.numKeys,
                   numKeys := node.numKeys + 1 }
    let s2 := setPageData s pageID node2
    let s3 := markDirty s2 pageID
    { t with buf := s3 }
  else
    splitLeaf { t with buf := s } pageID key

/-- `BPlusTree::insert`: descend to the proper leaf, then insert.  The
fuel passed to `findLeaf` exceeds the number of pages ever allocated, so
it never runs out on an acyclic tree. -/
def insert (t : TreeState) (key : Int) : TreeState :=
  let fuel := t.buf.nextPageID.toNat + 1
  let r := findLeaf fuel t.buf t.rootPage key
  insertIntoLeaf { t with buf := r.1 } r.2 key

/-- Fold a whole key sequence into a tree, left to right. -/
def insertAll (t : TreeState) (keys : List Int) : TreeState :=
  keys.foldl insert t

-- CACHE-COHERENCE WELL-FORMEDNESS

/-- Cache coherence, phrased over the three coupled components of a
buffer state: pool has the fixed capacity; page-table keys (resident
page ids) and values (frame indices) are both duplicate-free; every
entry names a valid frame whose metadata carries its page id; the
recency list is duplicate-free, mutually contained with the page-table
values, confined to the occupied prefix of the frame pool and bounded by
the capacity; and table size equals recency-list size. -/
def CoherentParts (pool : List Frame) (pt : List (Int × Nat)) (lru : List Nat) : Prop :=
  pool.length = BUFFER_CAPACITY ∧
  (pt.map Prod.fst).Nodup ∧
  (∀ e ∈ pt, e.2 < BUFFER_CAPACITY ∧ (pool.getD e.2 default).pageID = e.1) ∧
  lru.Nodup ∧
  (pt.map Prod.snd).Nodup ∧
  (∀ i ∈ lru, i ∈ pt.map Prod.snd) ∧
  (∀ e ∈ pt, e.2 ∈ lru) ∧
  (∀ i ∈ lru, i < lru.length) ∧
  lru.length ≤ BUFFER_CAPACITY ∧
  pt.length = lru.length

instance (pool : List Frame) (pt : List (Int × Nat)) (lru : List Nat) :
    Decidable (CoherentParts pool pt lru) := by
  unfold CoherentParts
  infer_instance

/-- Cache coherence of a buffer state (see `CoherentParts`). -/
def Coherent (s : BufferState) : Prop :=
  CoherentParts s.pool s.pageTable s.lru

instance (s : BufferState) : Decidable (Coherent s) := by
  unfold Coherent
  infer_instance

-- DIRTY-TRACKING AND PAGE-ID-BOUND WELL-FORMEDNESS

/-- Write-back soundness: a resident page whose frame is clean has a
frame image equal to its on-disk image (so evicting it without a flush
loses nothing). -/
def CleanOK (s : BufferState) : Prop :=
  ∀ e ∈ s.pageTable, (s.pool.getD e.2 default).dirty = false →
    (s.pool.getD e.2 default).data = s.disk e.1

/-- All resident pages carry identifiers already handed out by the
allocator, and the allocator counter is non-negative. -/
instance (s : BufferState) : Decidable (CleanOK s) := by
  unfold CleanOK
  infer_instance

def KeysBound (s : BufferState) : Prop :=
  0 ≤ s.nextPageID ∧ ∀ e ∈ s.pageTable, 0 ≤ e.1 ∧ e.1 < s.nextPageID

/-- The three well-formedness layers a buffer state reached by the
engine always satisfies. -/
instance (s : BufferState) : Decidable (KeysBound s) := by
  unfold KeysBound
  infer_instance

def GoodBuf (s : BufferState) : Prop :=
  Coherent s ∧ CleanOK s ∧ KeysBound s

instance (s : BufferState) : Decidable (GoodBuf s) := by
  unfold GoodBuf
  infer_instance


-- OPERATION SEQUENCES AGAINST THE BUFFER MANAGER (for the cache claims)

/-- One Cache Manager call, as issued by a client. -/
inductive BufOp where
  | fetch (pid : Int)
  | alloc
  | mark (pid : Int)
  deriving DecidableEq, Repr

/-- Apply one Cache Manager call to a buffer state. -/
def applyOp (s : BufferState) : BufOp → BufferState
  | BufOp.fetch pid => fetchPage s pid
  | BufOp.alloc => (allocatePage s).1
  | BufOp.mark pid => markDirty s pid

/-- Apply a whole call sequence, left to right. -/
def applyOps (s : BufferState) (ops : List BufOp) : BufferState :=
  ops.foldl applyOp s

/-- A buffer whose three frames are all occupied (pages 0, 1, 2), used to
exercise the eviction path on a concrete state. -/
def demoFullBuf : BufferState :=
  fetchPage (fetchPage (fetchPage initBuf 0) 1) 2

-- TREE-STATE INVARIANT (established for every insert-reachable state)

/-- What every leaf page image of a reachable tree satisfies: leaf flag
set, at most `MAX_KEYS` keys, the fixed array lengths, and the occupied
key prefix in non-decreasing order. -/
def leafOK (n : BPlusNode) : Prop :=
  n.isLeaf = true ∧ n.numKeys ≤ MAX_KEYS ∧ n.keys.length = MAX_KEYS ∧
  n.children.length = MAX_KEYS + 1 ∧
  List.Sorted (fun a b => a ≤ b) (n.keys.take n.numKeys)

instance (n : BPlusNode) : Decidable (leafOK n) := by
  unfold leafOK
  infer_instance

/-- What the internal root page image satisfies once the first split has
happened: internal flag, one key, children pointing at pages 0 and 1,
and the zero-filled `parentPage`/`nextLeaf` fields. -/
def rootOK (n : BPlusNode) : Prop :=
  n.isLeaf = false ∧ n.numKeys = 1 ∧ n.keys.length = MAX_KEYS ∧
  n.children.length = MAX_KEYS + 1 ∧
  n.children.getD 0 0 = 0 ∧ n.children.getD 1 0 = 1 ∧
  n.parentPage = 0 ∧ n.nextLeaf = 0

instance (n : BPlusNode) : Decidable (rootOK n) := by
  unfold rootOK
  infer_instance

/-- Tree shape before the first split: the root is leaf page 0, the only
allocated page, with the constructor's `parentPage = -1` marker. -/
def ShapeA (t : TreeState) : Prop :=
  t.rootPage = 0 ∧ t.buf.nextPageID = 1 ∧
  leafOK (pageContent t.buf 0) ∧ (pageContent t.buf 0).parentPage = -1 ∧
  (pageContent t.buf 0).nextLeaf = 0

instance (t : TreeState) : Decidable (ShapeA t) := by
  unfold ShapeA
  infer_instance

/-- Tree shape after the first split: internal root page 2 over leaf
pages 0 and 1; page 0 keeps `parentPage = -1`, page 1 keeps the
zero-fill `parentPage = 0`. -/
def ShapeB (t : TreeState) : Prop :=
  t.rootPage = 2 ∧ 3 ≤ t.buf.nextPageID ∧
  rootOK (pageContent t.buf 2) ∧
  leafOK (pageContent t.buf 0) ∧ (pageContent t.buf 0).parentPage = -1 ∧
  (pageContent t.buf 0).nextLeaf = 0 ∧
  leafOK (pageContent t.buf 1) ∧ (pageContent t.buf 1).parentPage = 0 ∧
  (pageContent t.buf 1).nextLeaf = 0

instance (t : TreeState) : Decidable (ShapeB t) := by
  unfold ShapeB
  infer_instance

/-- Every allocated page other than the current root is a well-formed
leaf; the ones other than page 0 also keep the zero-filled
`parentPage`/`nextLeaf`.  This covers the sibling pages orphaned by
dropped promotions. -/
def OrphansOK (t : TreeState) : Prop :=
  ∀ k : Nat, k < t.buf.nextPageID.toNat → (k : Int) ≠ t.rootPage →
    leafOK (pageContent t.buf (k : Int)) ∧
    ((k : Int) ≠ 0 → (pageContent t.buf (k : Int)).parentPage = 0 ∧
      (pageContent t.buf (k : Int)).nextLeaf = 0)

instance (t : TreeState) : Decidable (OrphansOK t) := by
  unfold OrphansOK
  infer_instance

/-- The full invariant of insert-reachable tree states. -/
def TreeInv (t : TreeState) : Prop :=
  GoodBuf t.buf ∧ OrphansOK t ∧ (ShapeA t ∨ ShapeB t)

instance (t : TreeState) : Decidable (TreeInv t) := by
  unfold TreeInv
  infer_instance

-- CONCRETE SCENARIO STATES

/-- The tree after the reference demonstration sequence 10, 20, 30, 40, 50. -/
def demoTree : TreeState :=
  insertAll newTree [10, 20, 30, 40, 50]

/-- The tree after inserting the duplicate sequence 10, 10. -/
def dupTree : TreeState :=
  insertAll newTree [10, 10]

/-- The tree after 10, 20, 30: its root leaf holds exactly MAX_KEYS keys. -/
def fullLeafTree : TreeState :=
  insertAll newTree [10, 20, 30]



-- NAMED STAGES OF splitLeaf (each stage is one step of its let-chain;
-- splitLeaf is proved definitionally equal to their composition)

/-- Stage of `splitLeaf`: the buffer after allocating the sibling. -/
def splitA (t : TreeState) : BufferState := (allocatePage t.buf).1

/-- Stage of `splitLeaf`: after re-fetching the old leaf. -/
def splitS1 (t : TreeState) (p : Int) : BufferState := fetchPage (splitA t) p

/-- Stage of `splitLeaf`: after fetching the new sibling. -/
def splitS2 (t : TreeState) (p : Int) : BufferState :=
  fetchPage (splitS1 t p) t.buf.nextPageID

/-- The sorted overflow vector `tempKeys` of `splitLeaf`. -/
def splitTemp (t : TreeState) (p key : Int) : List Int :=
  sortInts ((getPageData (splitS2 t p) p).keys.take MAX_KEYS ++ [key])

/-- Stage of `splitLeaf`: after `newNode->isLeaf = true`. -/
def splitS3 (t : TreeState) (p : Int) : BufferState :=
  setPageData (splitS2 t p) t.buf.nextPageID
    { (getPageData (splitS2 t p) t.buf.nextPageID) with isLeaf := true }

/-- Stage of `splitLeaf`: after `oldNode->numKeys = mid`. -/
def splitS4 (t : TreeState) (p : Int) : BufferState :=
  setPageData (splitS3 t p) p
    { (getPageData (splitS3 t p) p) with numKeys := (MAX_KEYS + 1) / 2 }

/-- Stage of `splitLeaf`: after `newNode->numKeys = (MAX_KEYS+1) - mid`. -/
def splitS5 (t : TreeState) (p : Int) : BufferState :=
  setPageData (splitS4 t p) t.buf.nextPageID
    { (getPageData (splitS4 t p) t.buf.nextPageID) with
      numKeys := (MAX_KEYS + 1) - (MAX_KEYS + 1) / 2 }

/-- Stage of `splitLeaf`: after the copy loop into the old leaf. -/
def splitS6 (t : TreeState) (p key : Int) : BufferState :=
  setPageData (splitS5 t p) p
    { (getPageData (splitS5 t p) p) with
      keys := copyKeys (getPageData (splitS5 t p) p).keys (splitTemp t p key) 0
        (getPageData (splitS5 t p) p).numKeys }

/-- Stage of `splitLeaf`: after the copy loop into the sibling. -/
def splitS7 (t : TreeState) (p key : Int) : BufferState :=
  setPageData (splitS6 t p key) t.buf.nextPageID
    { (getPageData (splitS6 t p key) t.buf.nextPageID) with
      keys := copyKeys (getPageData (splitS6 t p key) t.buf.nextPageID).keys
        (splitTemp t p key) ((MAX_KEYS + 1) / 2)
        (getPageData (splitS6 t p key) t.buf.nextPageID).numKeys }

/-- Stage of `splitLeaf`: after both `markDirty` calls. -/
def splitFinal (t : TreeState) (p key : Int) : BufferState :=
  markDirty (markDirty (splitS7 t p key) p) t.buf.nextPageID

/-- The key `splitLeaf` promotes: the sibling's first key after the split. -/
def splitPromoted (t : TreeState) (p key : Int) : Int :=
  (getPageData (splitFinal t p key) t.buf.nextPageID).keys.getD 0 0


-- PAGE-TABLE LEMMAS

theorem ptLookup_eq_some_mem {pt : List (Int × Nat)} {p : Int} {i : Nat}
    (h : ptLookup pt p = some i) : (p, i) ∈ pt := by
  unfold ptLookup at h
  rcases Option.map_eq_some'.mp h with ⟨e, hf, he⟩
  have hm := List.mem_of_find?_eq_some hf
  have hp := List.find?_some hf
  have hp1 : e.1 = p := by simpa using hp
  have : e = (p, i) := by
    cases e
    simp only at hp1 he
    simp [hp1, he]
  rwa [this] at hm

theorem ptLookup_eq_none_iff {pt : List (Int × Nat)} {p : Int} :
    ptLookup pt p = none ↔ ∀ e ∈ pt, e.1 ≠ p := by
  unfold ptLookup
  simp [List.find?_eq_none]

theorem mem_ptLookup {pt : List (Int × Nat)} {p : Int} {i : Nat}
    (hk : (pt.map Prod.fst).Nodup) (hm : (p, i) ∈ pt) : ptLookup pt p = some i := by
  induction pt with
  | nil => simp at hm
  | cons e tl ih =>
    rcases List.mem_cons.mp hm with heq | htl
    · unfold ptLookup
      rw [← heq]
      simp [List.find?]
    · by_cases hep : e.1 = p
      · exfalso
        have : p ∈ tl.map Prod.fst := List.mem_map.mpr ⟨(p, i), htl, rfl⟩
        rw [List.map_cons, List.nodup_cons] at hk
        exact hk.1 (hep ▸ this)
      · have hk' : (tl.map Prod.fst).Nodup := by
          rw [List.map_cons, List.nodup_cons] at hk
          exact hk.2
        have := ih hk' htl
        unfold ptLookup at this ⊢
        simp only [List.find?]
        have : (e.1 == p) = false := by simpa using hep
        simp only [this]
        exact ih hk' htl

theorem ptKeyInj {pt : List (Int × Nat)} {e1 e2 : Int × Nat}
    (hk : (pt.map Prod.fst).Nodup) (h1 : e1 ∈ pt) (h2 : e2 ∈ pt)
    (he : e1.1 = e2.1) : e1 = e2 := by
  have q1 : ptLookup pt e1.1 = some e1.2 := mem_ptLookup hk h1
  have q2 : ptLookup pt e2.1 = some e2.2 := mem_ptLookup hk h2
  rw [he] at q1
  rw [q1] at q2
  have : e1.2 = e2.2 := by injection q2
  cases e1; cases e2
  simp only at he this
  simp [he, this]

theorem mem_ptErase {pt : List (Int × Nat)} {p : Int} {e : Int × Nat} :
    e ∈ ptErase pt p ↔ e ∈ pt ∧ e.1 ≠ p := by
  unfold ptErase
  simp [List.mem_filter]

theorem ptErase_sublist (pt : List (Int × Nat)) (p : Int) :
    (ptErase pt p).Sublist pt := List.filter_sublist pt

theorem ptErase_length {pt : List (Int × Nat)} {p : Int} {i : Nat}
    (hk : (pt.map Prod.fst).Nodup) (hm : (p, i) ∈ pt) :
    (ptErase pt p).length + 1 = pt.length := by
  induction pt with
  | nil => simp at hm
  | cons e tl ih =>
    rw [List.map_cons, List.nodup_cons] at hk
    by_cases hep : e.1 = p
    · have htl : ∀ x ∈ tl, x.1 ≠ p := by
        intro x hx hxp
        exact hk.1 (hep ▸ hxp ▸ List.mem_map.mpr ⟨x, hx, rfl⟩)
      have : ptErase (e :: tl) p = ptErase tl p := by
        unfold ptErase
        simp only [List.filter]
        have : (e.1 == p) = true := by simpa using hep
        simp [this]
      rw [this]
      have : ptErase tl p = tl := by
        unfold ptErase
        apply List.filter_eq_self.mpr
        intro x hx
        simpa using htl x hx
      simp [this]
    · have hmtl : (p, i) ∈ tl := by
        rcases List.mem_cons.mp hm with heq | htl
        · exact absurd (by rw [← heq]) hep
        · exact htl
      have : ptErase (e :: tl) p = e :: ptErase tl p := by
        unfold ptErase
        simp only [List.filter]
        have : (e.1 == p) = false := by simpa using hep
        simp [this]
      rw [this]
      simpa using ih hk.2 hmtl

theorem ptInsert_of_none {pt : List (Int × Nat)} {p : Int} {v : Nat}
    (h : ptLookup pt p = none) : ptInsert pt p v = (p, v) :: pt := by
  unfold ptInsert
  simp [h]

-- SMALL LIST LEMMAS ABOUT THE RECENCY LIST

theorem mem_filterNe {l : List Nat} {a i : Nat} :
    i ∈ l.filter (fun j => !(j == a)) ↔ i ∈ l ∧ i ≠ a := by
  simp [List.mem_filter]

theorem filterNe_of_not_mem {l : List Nat} {a : Nat} (h : a ∉ l) :
    l.filter (fun j => !(j == a)) = l := by
  apply List.filter_eq_self.mpr
  intro x hx
  simp only [Bool.not_eq_true']
  have : x ≠ a := fun hxa => h (hxa ▸ hx)
  simpa using this

theorem filterNe_length {l : List Nat} {a : Nat} (hnd : l.Nodup) (ha : a ∈ l) :
    (l.filter (fun j => !(j == a))).length + 1 = l.length := by
  induction l with
  | nil => simp at ha
  | cons b tl ih =>
    rw [List.nodup_cons] at hnd
    by_cases hba : b = a
    · subst hba
      have : tl.filter (fun j => !(j == b)) = tl := filterNe_of_not_mem hnd.1
      simp [List.filter, this]
    · have hatl : a ∈ tl := by
        rcases List.mem_cons.mp ha with h1 | h2
        · exact absurd h1.symm hba
        · exact h2
      have hb : (b == a) = false := by simpa using hba
      simp only [List.filter, hb, Bool.not_false, List.length_cons]
      have := ih hnd.2 hatl
      omega

-- POINTWISE LEMMAS ABOUT LIST SET AND MODIFY

theorem getD_set_self {α : Type} [Inhabited α] {l : List α} {i : Nat} {a : α}
    (h : i < l.length) : (l.set i a).getD i default = a := by
  rw [List.getD_eq_getElem?_getD, List.getElem?_set]
  simp [h]

theorem getD_set_ne {α : Type} [Inhabited α] {l : List α} {i j : Nat} {a : α}
    (h : i ≠ j) : (l.set i a).getD j default = l.getD j default := by
  rw [List.getD_eq_getElem?_getD, List.getD_eq_getElem?_getD, List.getElem?_set]
  simp [h]

theorem getD_modify_self {α : Type} [Inhabited α] (f : α → α) {l : List α} {i : Nat}
    (h : i < l.length) : (l.modify f i).getD i default = f (l.getD i default) := by
  rw [List.getD_eq_getElem?_getD, List.getD_eq_getElem?_getD, List.getElem?_modify]
  rcases List.getElem?_eq_some_iff.mpr ⟨h, rfl⟩ with hx
  rw [hx]
  simp

theorem getD_modify_ne {α : Type} [Inhabited α] (f : α → α) {l : List α} {i j : Nat}
    (h : i ≠ j) : (l.modify f i).getD j default = l.getD j default := by
  rw [List.getD_eq_getElem?_getD, List.getD_eq_getElem?_getD, List.getElem?_modify]
  cases hx : l[j]? with
  | none => simp
  | some x => simp [h]


-- COHERENCE PRESERVATION

theorem touch_coherentParts {pool : List Frame} {pt : List (Int × Nat)}
    {lru : List Nat} {idx : Nat}
    (h : CoherentParts pool pt lru) (hm : idx ∈ lru) :
    CoherentParts pool pt (idx :: lru.filter (fun j => !(j == idx))) := by
  obtain ⟨h1, h2, h3, h4, h5, h6, h7, h8, h9, h10⟩ := h
  have hlen : (lru.filter (fun j => !(j == idx))).length + 1 = lru.length :=
    filterNe_length h4 hm
  refine ⟨h1, h2, h3, ?_, h5, ?_, ?_, ?_, ?_, ?_⟩
  · rw [List.nodup_cons]
    exact ⟨fun hc => (mem_filterNe.mp hc).2 rfl, h4.filter _⟩
  · intro i hi
    rcases List.mem_cons.mp hi with hq | hi'
    · exact hq ▸ h6 idx hm
    · exact h6 i (mem_filterNe.mp hi').1
  · intro e he
    by_cases hc : e.2 = idx
    · rw [hc]
      exact List.mem_cons_self _ _
    · exact List.mem_cons_of_mem _ (mem_filterNe.mpr ⟨h7 e he, hc⟩)
  · intro i hi
    have hil : i ∈ lru := by
      rcases List.mem_cons.mp hi with hq | hi'
      · exact hq ▸ hm
      · exact (mem_filterNe.mp hi').1
    have := h8 i hil
    simp only [List.length_cons]
    omega
  · simp only [List.length_cons]
    omega
  · simp only [List.length_cons]
    omega

theorem install_coherentParts {pool : List Frame} {pt : List (Int × Nat)}
    {lru : List Nat} {p : Int} {idx : Nat} {fr : Frame}
    (hfr : fr.pageID = p)
    (ha : pool.length = BUFFER_CAPACITY)
    (hb : (pt.map Prod.fst).Nodup)
    (hc : ∀ e ∈ pt, e.2 < BUFFER_CAPACITY ∧ (pool.getD e.2 default).pageID = e.1)
    (hd : lru.Nodup)
    (he : (pt.map Prod.snd).Nodup)
    (hf : ∀ i ∈ lru, i ∈ pt.map Prod.snd)
    (hg : ∀ e ∈ pt, e.2 ∈ lru)
    (hh : idx ∉ lru)
    (hi : idx < BUFFER_CAPACITY)
    (hj : ∀ i ∈ lru, i < lru.length + 1)
    (hk : idx < lru.length + 1)
    (hl : lru.length + 1 ≤ BUFFER_CAPACITY)
    (hm : pt.length = lru.length)
    (hn : ptLookup pt p = none) :
    CoherentParts (pool.set idx fr) (ptInsert pt p idx)
      (idx :: lru.filter (fun j => !(j == idx))) := by
  have hvnotmem : idx ∉ pt.map Prod.snd := by
    intro hx
    rcases List.mem_map.mp hx with ⟨e, hemem, hesnd⟩
    exact hh (hesnd ▸ hg e hemem)
  have hpt : ptInsert pt p idx = (p, idx) :: pt := ptInsert_of_none hn
  have hfne : lru.filter (fun j => !(j == idx)) = lru := filterNe_of_not_mem hh
  have hkeys : ∀ e ∈ pt, e.1 ≠ p := ptLookup_eq_none_iff.mp hn
  rw [hpt, hfne]
  refine ⟨?_, ?_, ?_, ?_, ?_, ?_, ?_, ?_, ?_, ?_⟩
  · simpa using ha
  · rw [List.map_cons, List.nodup_cons]
    refine ⟨?_, hb⟩
    intro hx
    rcases List.mem_map.mp hx with ⟨e, hemem, hefst⟩
    exact hkeys e hemem hefst
  · intro e hemem
    rcases List.mem_cons.mp hemem with hq | he'
    · subst hq
      refine ⟨hi, ?_⟩
      rw [getD_set_self (ha ▸ hi)]
      exact hfr
    · have hne : idx ≠ e.2 := fun hx => hh (hx ▸ hg e he')
      exact ⟨(hc e he').1, by rw [getD_set_ne hne]; exact (hc e he').2⟩
  · rw [List.nodup_cons]
    exact ⟨hh, hd⟩
  · rw [List.map_cons, List.nodup_cons]
    exact ⟨hvnotmem, he⟩
  · intro i hi'
    rw [List.map_cons]
    rcases List.mem_cons.mp hi' with hq | hil
    · exact hq ▸ List.mem_cons_self _ _
    · exact List.mem_cons_of_mem _ (hf i hil)
  · intro e hemem
    rcases List.mem_cons.mp hemem with hq | he'
    · subst hq
      exact List.mem_cons_self _ _
    · exact List.mem_cons_of_mem _ (hg e he')
  · intro i hi'
    simp only [List.length_cons]
    rcases List.mem_cons.mp hi' with hq | hil
    · subst hq
      exact hk
    · exact hj i hil
  · simpa using hl
  · simpa using hm

theorem evict_notFull {s : BufferState} (h : s.lru.length < BUFFER_CAPACITY) :
    evict s = (s, s.lru.length) := by
  unfold evict
  simp [h]

theorem evict_full {s : BufferState} (h : ¬ s.lru.length < BUFFER_CAPACITY) :
    evict s = ({ s with
      disk := if (s.pool.getD (s.lru.getLast?.getD 0) default).dirty then
          diskWrite s.disk (s.pool.getD (s.lru.getLast?.getD 0) default).pageID
            (s.pool.getD (s.lru.getLast?.getD 0) default).data
        else s.disk,
      pageTable := ptErase s.pageTable (s.pool.getD (s.lru.getLast?.getD 0) default).pageID,
      lru := s.lru.dropLast,
      evictCount := s.evictCount + 1 }, s.lru.getLast?.getD 0) := by
  unfold evict
  simp [h]

theorem fetchPage_hit {s : BufferState} {p : Int} {idx : Nat}
    (hl : ptLookup s.pageTable p = some idx) : fetchPage s p = touch s idx := by
  unfold fetchPage
  rw [hl]

theorem fetchPage_miss {s : BufferState} {p : Int}
    (hl : ptLookup s.pageTable p = none) :
    fetchPage s p = touch { (evict s).1 with
      pool := (evict s).1.pool.set (evict s).2
        { pageID := p, dirty := false, data := (evict s).1.disk p },
      pageTable := ptInsert (evict s).1.pageTable p (evict s).2 } (evict s).2 := by
  unfold fetchPage
  rw [hl]

theorem fetchPage_coherent {s : BufferState} (h : Coherent s) (p : Int) :
    Coherent (fetchPage s p) := by
  cases hl : ptLookup s.pageTable p with
  | some idx =>
    rw [fetchPage_hit hl]
    have hmem : (p, idx) ∈ s.pageTable := ptLookup_eq_some_mem hl
    have hidx : idx ∈ s.lru := h.2.2.2.2.2.2.1 (p, idx) hmem
    exact touch_coherentParts h hidx
  | none =>
    obtain ⟨h1, h2, h3, h4, h5, h6, h7, h8, h9, h10⟩ := h
    rw [fetchPage_miss hl]
    by_cases hfull : s.lru.length < BUFFER_CAPACITY
    · rw [evict_notFull hfull]
      have hnotmem : s.lru.length ∉ s.lru := fun hx => absurd (h8 _ hx) (lt_irrefl _)
      exact install_coherentParts rfl h1 h2 h3 h4 h5 h6 h7 hnotmem hfull
        (fun i hi => Nat.lt_succ_of_lt (h8 i hi)) (Nat.lt_succ_self _)
        hfull h10 hl
    · have hcap : s.lru.length = BUFFER_CAPACITY :=
        Nat.le_antisymm h9 (Nat.not_lt.mp hfull)
      have hne : s.lru ≠ [] := by
        intro hx
        rw [hx] at hcap
        simp [BUFFER_CAPACITY] at hcap
      have hgl : s.lru.getLast? = some (s.lru.getLast hne) :=
        List.getLast?_eq_getLast _ hne
      rw [evict_full hfull]
      have hidxval : s.lru.getLast?.getD 0 = s.lru.getLast hne := by
        rw [hgl]
        rfl
      rw [hidxval]
      have hdecomp : s.lru.dropLast ++ [s.lru.getLast hne] = s.lru :=
        List.dropLast_append_getLast hne
      have hidxmem : s.lru.getLast hne ∈ s.lru := List.getLast_mem hne
      have hnd : (s.lru.dropLast ++ [s.lru.getLast hne]).Nodup := by
        rw [hdecomp]
        exact h4
      have hdl_nodup : s.lru.dropLast.Nodup := (List.nodup_append.mp hnd).1
      have hdl_notmem : s.lru.getLast hne ∉ s.lru.dropLast := by
        intro hx
        exact (List.nodup_append.mp hnd).2.2 hx (List.mem_singleton_self _)
      have hvmem : s.lru.getLast hne ∈ s.pageTable.map Prod.snd := h6 _ hidxmem
      rcases List.mem_map.mp hvmem with ⟨e0, he0mem, he0snd⟩
      have he0eq : e0 = ((s.pool.getD (s.lru.getLast hne) default).pageID,
          s.lru.getLast hne) := by
        have h31 := (h3 e0 he0mem).2
        rw [he0snd] at h31
        cases e0
        simp only at he0snd h31
        simp [← h31, he0snd]
      have he0' : ((s.pool.getD (s.lru.getLast hne) default).pageID, s.lru.getLast hne)
          ∈ s.pageTable := he0eq ▸ he0mem
      have hdl_len : s.lru.dropLast.length + 1 = s.lru.length := by
        have := congrArg List.length hdecomp
        simpa using this
      have hmem_dl : ∀ i ∈ s.lru.dropLast, i ∈ s.lru := by
        intro i hi
        rw [← hdecomp]
        exact List.mem_append_left _ hi
      have hb' : ((ptErase s.pageTable
          (s.pool.getD (s.lru.getLast hne) default).pageID).map Prod.fst).Nodup :=
        h2.sublist ((ptErase_sublist _ _).map Prod.fst)
      have hc' : ∀ e ∈ ptErase s.pageTable
          (s.pool.getD (s.lru.getLast hne) default).pageID,
          e.2 < BUFFER_CAPACITY ∧ (s.pool.getD e.2 default).pageID = e.1 :=
        fun e he' => h3 e ((ptErase_sublist _ _).mem he')
      have he' : ((ptErase s.pageTable
          (s.pool.getD (s.lru.getLast hne) default).pageID).map Prod.snd).Nodup :=
        h5.sublist ((ptErase_sublist _ _).map Prod.snd)
      have hf' : ∀ i ∈ s.lru.dropLast, i ∈ (ptErase s.pageTable
          (s.pool.getD (s.lru.getLast hne) default).pageID).map Prod.snd := by
        intro i hi
        have hil : i ∈ s.lru := hmem_dl i hi
        rcases List.mem_map.mp (h6 i hil) with ⟨e, hemem, hesnd⟩
        have hine : i ≠ s.lru.getLast hne := fun hx => hdl_notmem (hx ▸ hi)
        have hkeyne : e.1 ≠ (s.pool.getD (s.lru.getLast hne) default).pageID := by
          intro hx
          have heq : e = ((s.pool.getD (s.lru.getLast hne) default).pageID,
              s.lru.getLast hne) := ptKeyInj h2 hemem he0' hx
          rw [heq] at hesnd
          exact hine hesnd.symm
        exact List.mem_map.mpr ⟨e, mem_ptErase.mpr ⟨hemem, hkeyne⟩, hesnd⟩
      have hg' : ∀ e ∈ ptErase s.pageTable
          (s.pool.getD (s.lru.getLast hne) default).pageID, e.2 ∈ s.lru.dropLast := by
        intro e he2
        rcases mem_ptErase.mp he2 with ⟨hemem, hkeyne⟩
        have hmem2 : e.2 ∈ s.lru := h7 e hemem
        rw [← hdecomp] at hmem2
        rcases List.mem_append.mp hmem2 with hq | hq
        · exact hq
        · exfalso
          have heidx : e.2 = s.lru.getLast hne := List.mem_singleton.mp hq
          exact hkeyne (heidx ▸ (h3 e hemem).2).symm
      have hi' : s.lru.getLast hne < BUFFER_CAPACITY := hcap ▸ h8 _ hidxmem
      have hj' : ∀ i ∈ s.lru.dropLast, i < s.lru.dropLast.length + 1 := by
        intro i hi
        have := h8 i (hmem_dl i hi)
        omega
      have hk' : s.lru.getLast hne < s.lru.dropLast.length + 1 := by
        have := h8 _ hidxmem
        omega
      have hl' : s.lru.dropLast.length + 1 ≤ BUFFER_CAPACITY := by omega
      have hm' : (ptErase s.pageTable
          (s.pool.getD (s.lru.getLast hne) default).pageID).length
          = s.lru.dropLast.length := by
        have := ptErase_length h2 he0'
        omega
      have hn' : ptLookup (ptErase s.pageTable
          (s.pool.getD (s.lru.getLast hne) default).pageID) p = none := by
        rw [ptLookup_eq_none_iff]
        intro e he2
        exact ptLookup_eq_none_iff.mp hl e ((ptErase_sublist _ _).mem he2)
      exact install_coherentParts rfl h1 hb' hc' hdl_nodup he' hf' hg' hdl_notmem
        hi' hj' hk' hl' hm' hn'

theorem getD_modify_pageID (f : Frame → Frame) (hf : ∀ fr, (f fr).pageID = fr.pageID)
    (l : List Frame) (i j : Nat) :
    ((l.modify f i).getD j default).pageID = (l.getD j default).pageID := by
  rw [List.getD_eq_getElem?_getD, List.getD_eq_getElem?_getD, List.getElem?_modify]
  by_cases hij : i = j
  · subst hij
    cases hx : l[i]? with
    | none => simp
    | some fr => simp [hf]
  · simp [hij]

theorem getD_modify_data (f : Frame → Frame) (hf : ∀ fr, (f fr).data = fr.data)
    (l : List Frame) (i j : Nat) :
    ((l.modify f i).getD j default).data = (l.getD j default).data := by
  rw [List.getD_eq_getElem?_getD, List.getD_eq_getElem?_getD, List.getElem?_modify]
  by_cases hij : i = j
  · subst hij
    cases hx : l[i]? with
    | none => simp
    | some fr => simp [hf]
  · simp [hij]

theorem getD_modify_dirty (f : Frame → Frame) (hf : ∀ fr, (f fr).dirty = fr.dirty)
    (l : List Frame) (i j : Nat) :
    ((l.modify f i).getD j default).dirty = (l.getD j default).dirty := by
  rw [List.getD_eq_getElem?_getD, List.getD_eq_getElem?_getD, List.getElem?_modify]
  by_cases hij : i = j
  · subst hij
    cases hx : l[i]? with
    | none => simp
    | some fr => simp [hf]
  · simp [hij]

theorem modify_coherent {s : BufferState} {idx : Nat} {f : Frame → Frame}
    (hf : ∀ fr, (f fr).pageID = fr.pageID) (h : Coherent s) :
    Coherent { s with pool := s.pool.modify f idx } := by
  obtain ⟨h1, h2, h3, h4, h5, h6, h7, h8, h9, h10⟩ := h
  refine ⟨?_, h2, ?_, h4, h5, h6, h7, h8, h9, h10⟩
  · show (List.modify f idx s.pool).length = BUFFER_CAPACITY
    rw [List.length_modify]
    exact h1
  · intro e he
    exact ⟨(h3 e he).1, by
      show ((List.modify f idx s.pool).getD e.2 default).pageID = e.1
      rw [getD_modify_pageID f hf]
      exact (h3 e he).2⟩

theorem markDirty_coherent {s : BufferState} (h : Coherent s) (p : Int) :
    Coherent (markDirty s p) := by
  unfold markDirty
  cases hl : ptLookup s.pageTable p with
  | some idx => exact modify_coherent (fun fr => rfl) h
  | none => exact h

theorem setPageData_coherent {s : BufferState} (h : Coherent s) (p : Int) (d : BPlusNode) :
    Coherent (setPageData s p d) := by
  unfold setPageData
  cases hl : ptLookup s.pageTable p with
  | some idx => exact modify_coherent (fun fr => rfl) h
  | none => exact h

-- STATE-COMPONENT PROJECTION LEMMAS

theorem setPageData_pageTable (s : BufferState) (p : Int) (d : BPlusNode) :
    (setPageData s p d).pageTable = s.pageTable := by
  unfold setPageData
  cases ptLookup s.pageTable p <;> rfl

theorem setPageData_lru (s : BufferState) (p : Int) (d : BPlusNode) :
    (setPageData s p d).lru = s.lru := by
  unfold setPageData
  cases ptLookup s.pageTable p <;> rfl

theorem setPageData_disk (s : BufferState) (p : Int) (d : BPlusNode) :
    (setPageData s p d).disk = s.disk := by
  unfold setPageData
  cases ptLookup s.pageTable p <;> rfl

theorem setPageData_nextPageID (s : BufferState) (p : Int) (d : BPlusNode) :
    (setPageData s p d).nextPageID = s.nextPageID := by
  unfold setPageData
  cases ptLookup s.pageTable p <;> rfl

theorem setPageData_evictCount (s : BufferState) (p : Int) (d : BPlusNode) :
    (setPageData s p d).evictCount = s.evictCount := by
  unfold setPageData
  cases ptLookup s.pageTable p <;> rfl

theorem markDirty_pageTable (s : BufferState) (p : Int) :
    (markDirty s p).pageTable = s.pageTable := by
  unfold markDirty
  cases ptLookup s.pageTable p <;> rfl

theorem markDirty_lru (s : BufferState) (p : Int) :
    (markDirty s p).lru = s.lru := by
  unfold markDirty
  cases ptLookup s.pageTable p <;> rfl

theorem markDirty_disk (s : BufferState) (p : Int) :
    (markDirty s p).disk = s.disk := by
  unfold markDirty
  cases ptLookup s.pageTable p <;> rfl

theorem markDirty_nextPageID (s : BufferState) (p : Int) :
    (markDirty s p).nextPageID = s.nextPageID := by
  unfold markDirty
  cases ptLookup s.pageTable p <;> rfl

theorem markDirty_evictCount (s : BufferState) (p : Int) :
    (markDirty s p).evictCount = s.evictCount := by
  unfold markDirty
  cases ptLookup s.pageTable p <;> rfl

theorem fetchPage_nextPageID (s : BufferState) (p : Int) :
    (fetchPage s p).nextPageID = s.nextPageID := by
  cases hl : ptLookup s.pageTable p with
  | some idx => rw [fetchPage_hit hl]; rfl
  | none =>
    rw [fetchPage_miss hl]
    by_cases hfull : s.lru.length < BUFFER_CAPACITY
    · rw [evict_notFull hfull]
      rfl
    · rw [evict_full hfull]
      rfl

theorem markDirty_pageContent (s : BufferState) (p q : Int) :
    pageContent (markDirty s p) q = pageContent s q := by
  unfold pageContent
  rw [markDirty_pageTable]
  cases hq : ptLookup s.pageTable q with
  | none =>
    rw [markDirty_disk]
  | some j =>
    unfold markDirty
    cases hp : ptLookup s.pageTable p with
    | none => rfl
    | some idx =>
      show ((List.modify (fun fr => { fr with dirty := true }) idx s.pool).getD
        j default).data = _
      rw [getD_modify_data (fun fr => { fr with dirty := true }) (fun fr => rfl)]

theorem ptLookup_cons_self (pt : List (Int × Nat)) (p : Int) (i : Nat) :
    ptLookup ((p, i) :: pt) p = some i := by
  unfold ptLookup
  simp [List.find?]

theorem ptLookup_cons_ne {pt : List (Int × Nat)} {p q : Int} {i : Nat} (h : q ≠ p) :
    ptLookup ((p, i) :: pt) q = ptLookup pt q := by
  unfold ptLookup
  have : (p == q) = false := by simpa using fun hx => h hx.symm
  simp [List.find?, this]

theorem ptValInj {pt : List (Int × Nat)} {e1 e2 : Int × Nat}
    (hv : (pt.map Prod.snd).Nodup) (h1 : e1 ∈ pt) (h2 : e2 ∈ pt)
    (he : e1.2 = e2.2) : e1 = e2 := by
  induction pt with
  | nil => simp at h1
  | cons e tl ih =>
    rw [List.map_cons, List.nodup_cons] at hv
    rcases List.mem_cons.mp h1 with hq1 | ht1 <;>
      rcases List.mem_cons.mp h2 with hq2 | ht2
    · rw [hq1, hq2]
    · exfalso
      apply hv.1
      rw [← hq1] at *
      exact he ▸ List.mem_map.mpr ⟨e2, ht2, rfl⟩
    · exfalso
      apply hv.1
      rw [← hq2] at *
      exact he ▸ List.mem_map.mpr ⟨e1, ht1, rfl⟩
    · exact ih hv.2 ht1 ht2

-- POINTWISE EFFECT OF THE PAGE-IMAGE MUTATORS

theorem setPageData_pageContent_self {s : BufferState} {p : Int} {idx : Nat}
    (hc : Coherent s) (hl : ptLookup s.pageTable p = some idx) (d : BPlusNode) :
    pageContent (setPageData s p d) p = d := by
  have hmem : (p, idx) ∈ s.pageTable := ptLookup_eq_some_mem hl
  have hidx : idx < s.pool.length := by
    rw [hc.1]
    exact (hc.2.2.1 (p, idx) hmem).1
  unfold pageContent
  rw [setPageData_pageTable, hl]
  unfold setPageData
  rw [hl]
  show ((List.modify (fun fr => { fr with data := d }) idx s.pool).getD
    idx default).data = d
  rw [getD_modify_self _ hidx]

theorem setPageData_pageContent_ne {s : BufferState} {p q : Int}
    (hc : Coherent s) (hq : q ≠ p) (d : BPlusNode) :
    pageContent (setPageData s p d) q = pageContent s q := by
  unfold pageContent
  rw [setPageData_pageTable]
  cases hlq : ptLookup s.pageTable q with
  | none =>
    rw [setPageData_disk]
  | some j =>
    unfold setPageData
    cases hlp : ptLookup s.pageTable p with
    | none => rfl
    | some idx =>
      have hmemq : (q, j) ∈ s.pageTable := ptLookup_eq_some_mem hlq
      have hmemp : (p, idx) ∈ s.pageTable := ptLookup_eq_some_mem hlp
      have hji : idx ≠ j := by
        intro hx
        have : (q, j) = (p, idx) := ptValInj hc.2.2.2.2.1 hmemq hmemp (by simp [hx])
        exact hq (by injection this)
      show ((List.modify (fun fr => { fr with data := d }) idx s.pool).getD
        j default).data = _
      rw [getD_modify_ne _ hji]

theorem setPageData_frameDirty (s : BufferState) (p q : Int) (d : BPlusNode) :
    frameDirty (setPageData s p d) q = frameDirty s q := by
  unfold frameDirty
  rw [setPageData_pageTable]
  cases hq : ptLookup s.pageTable q with
  | none => rfl
  | some j =>
    unfold setPageData
    cases hp : ptLookup s.pageTable p with
    | none => rfl
    | some idx =>
      show ((List.modify (fun fr => { fr with data := d }) idx s.pool).getD
        j default).dirty = _
      rw [getD_modify_dirty (fun fr => { fr with data := d }) (fun fr => rfl)]

theorem markDirty_frameDirty_self {s : BufferState} {p : Int} {idx : Nat}
    (hc : Coherent s) (hl : ptLookup s.pageTable p = some idx) :
    frameDirty (markDirty s p) p = true := by
  have hmem : (p, idx) ∈ s.pageTable := ptLookup_eq_some_mem hl
  have hidx : idx < s.pool.length := by
    rw [hc.1]
    exact (hc.2.2.1 (p, idx) hmem).1
  unfold frameDirty
  rw [markDirty_pageTable, hl]
  unfold markDirty
  rw [hl]
  show ((List.modify (fun fr => { fr with dirty := true }) idx s.pool).getD
    idx default).dirty = true
  rw [getD_modify_self _ hidx]

theorem markDirty_frameDirty_ne {s : BufferState} {p q : Int}
    (hc : Coherent s) (hq : q ≠ p) :
    frameDirty (markDirty s p) q = frameDirty s q := by
  unfold frameDirty
  rw [markDirty_pageTable]
  cases hlq : ptLookup s.pageTable q with
  | none => rfl
  | some j =>
    unfold markDirty
    cases hlp : ptLookup s.pageTable p with
    | none => rfl
    | some idx =>
      have hmemq : (q, j) ∈ s.pageTable := ptLookup_eq_some_mem hlq
      have hmemp : (p, idx) ∈ s.pageTable := ptLookup_eq_some_mem hlp
      have hji : idx ≠ j := by
        intro hx
        have : (q, j) = (p, idx) := ptValInj hc.2.2.2.2.1 hmemq hmemp (by simp [hx])
        exact hq (by injection this)
      show ((List.modify (fun fr => { fr with dirty := true }) idx s.pool).getD
        j default).dirty = _
      rw [getD_modify_ne _ hji]

theorem fetchPage_preserves {s : BufferState} (hc : Coherent s) (hclean : CleanOK s)
    (p : Int) :
    CleanOK (fetchPage s p) ∧ ∀ q, pageContent (fetchPage s p) q = pageContent s q := by
  obtain ⟨h1, h2, h3, h4, h5, h6, h7, h8, h9, h10⟩ := hc
  cases hl : ptLookup s.pageTable p with
  | some idx =>
    rw [fetchPage_hit hl]
    exact ⟨hclean, fun q => rfl⟩
  | none =>
    rw [fetchPage_miss hl]
    by_cases hfull : s.lru.length < BUFFER_CAPACITY
    · rw [evict_notFull hfull]
      have hpt : ptInsert s.pageTable p s.lru.length = (p, s.lru.length) :: s.pageTable :=
        ptInsert_of_none hl
      have hnotmem : s.lru.length ∉ s.lru := fun hx => absurd (h8 _ hx) (lt_irrefl _)
      have hltlen : s.lru.length < s.pool.length := by omega
      constructor
      · intro e he hd
        dsimp only [touch] at he hd ⊢
        rw [hpt] at he
        rcases List.mem_cons.mp he with hq | he'
        · subst hq
          rw [getD_set_self hltlen]
        · have hne : s.lru.length ≠ e.2 := fun hx => hnotmem (hx ▸ h7 e he')
          rw [getD_set_ne hne] at hd ⊢
          exact hclean e he' hd
      · intro q
        unfold pageContent
        dsimp only [touch]
        rw [hpt]
        by_cases hqp : q = p
        · subst hqp
          rw [ptLookup_cons_self, hl]
          dsimp only
          rw [getD_set_self hltlen]
        · rw [ptLookup_cons_ne hqp]
          cases hlq : ptLookup s.pageTable q with
          | none => rfl
          | some j =>
            have hne : s.lru.length ≠ j :=
              fun hx => hnotmem (hx ▸ h7 _ (ptLookup_eq_some_mem hlq))
            dsimp only
            rw [getD_set_ne hne]
    · -- full buffer: evict the LRU victim first
      have hcap : s.lru.length = BUFFER_CAPACITY :=
        Nat.le_antisymm h9 (Nat.not_lt.mp hfull)
      have hne : s.lru ≠ [] := by
        intro hx
        rw [hx] at hcap
        simp [BUFFER_CAPACITY] at hcap
      have hgl : s.lru.getLast? = some (s.lru.getLast hne) :=
        List.getLast?_eq_getLast _ hne
      have hidxval : s.lru.getLast?.getD 0 = s.lru.getLast hne := by
        rw [hgl]
        rfl
      rw [evict_full hfull, hidxval]
      have hidxmem : s.lru.getLast hne ∈ s.lru := List.getLast_mem hne
      have hvmem : s.lru.getLast hne ∈ s.pageTable.map Prod.snd := h6 _ hidxmem
      rcases List.mem_map.mp hvmem with ⟨e0, he0mem, he0snd⟩
      have he0eq : e0 = ((s.pool.getD (s.lru.getLast hne) default).pageID,
          s.lru.getLast hne) := by
        have h31 := (h3 e0 he0mem).2
        rw [he0snd] at h31
        cases e0
        simp only at he0snd h31
        simp [← h31, he0snd]
      have he0' : ((s.pool.getD (s.lru.getLast hne) default).pageID, s.lru.getLast hne)
          ∈ s.pageTable := he0eq ▸ he0mem
      have hpidne : (s.pool.getD (s.lru.getLast hne) default).pageID ≠ p :=
        ptLookup_eq_none_iff.mp hl _ he0'
      have hb' : ((ptErase s.pageTable
          (s.pool.getD (s.lru.getLast hne) default).pageID).map Prod.fst).Nodup :=
        h2.sublist ((ptErase_sublist _ _).map Prod.fst)
      have hn' : ptLookup (ptErase s.pageTable
          (s.pool.getD (s.lru.getLast hne) default).pageID) p = none := by
        rw [ptLookup_eq_none_iff]
        intro e he2
        exact ptLookup_eq_none_iff.mp hl e ((ptErase_sublist _ _).mem he2)
      have hpt : ptInsert (ptErase s.pageTable
          (s.pool.getD (s.lru.getLast hne) default).pageID) p (s.lru.getLast hne)
          = (p, s.lru.getLast hne) :: ptErase s.pageTable
            (s.pool.getD (s.lru.getLast hne) default).pageID :=
        ptInsert_of_none hn'
      have hglt : s.lru.getLast hne < s.pool.length := by
        rw [h1]
        exact (h3 _ he0').1
      have hfrne : ∀ e ∈ ptErase s.pageTable
          (s.pool.getD (s.lru.getLast hne) default).pageID,
          s.lru.getLast hne ≠ e.2 := by
        intro e he2 hx
        rcases mem_ptErase.mp he2 with ⟨hemem, hkeyne⟩
        exact hkeyne (hx ▸ (h3 e hemem).2).symm
      have hdifq : ∀ q : Int, q ≠ (s.pool.getD (s.lru.getLast hne) default).pageID →
          (if (s.pool.getD (s.lru.getLast hne) default).dirty = true then
            diskWrite s.disk (s.pool.getD (s.lru.getLast hne) default).pageID
              (s.pool.getD (s.lru.getLast hne) default).data
          else s.disk) q = s.disk q := by
        intro q hq
        by_cases hd : (s.pool.getD (s.lru.getLast hne) default).dirty = true
        · rw [if_pos hd]
          unfold diskWrite
          rw [if_neg hq]
        · rw [if_neg hd]
      have hdifpid : (if (s.pool.getD (s.lru.getLast hne) default).dirty = true then
            diskWrite s.disk (s.pool.getD (s.lru.getLast hne) default).pageID
              (s.pool.getD (s.lru.getLast hne) default).data
          else s.disk) (s.pool.getD (s.lru.getLast hne) default).pageID
          = (s.pool.getD (s.lru.getLast hne) default).data := by
        by_cases hd : (s.pool.getD (s.lru.getLast hne) default).dirty = true
        · rw [if_pos hd]
          unfold diskWrite
          rw [if_pos rfl]
        · rw [if_neg hd]
          exact (hclean _ he0' (by simpa using hd)).symm
      constructor
      · intro e he hd
        dsimp only [touch] at he hd ⊢
        rw [hpt] at he
        rcases List.mem_cons.mp he with hq | he'
        · subst hq
          rw [getD_set_self hglt]
        · have hne2 : s.lru.getLast hne ≠ e.2 := hfrne e he'
          rw [getD_set_ne hne2] at hd ⊢
          rcases mem_ptErase.mp he' with ⟨hemem, hkeyne⟩
          rw [hclean e hemem hd]
          exact (hdifq e.1 hkeyne).symm
      · intro q
        unfold pageContent
        dsimp only [touch]
        rw [hpt]
        by_cases hqp : q = p
        · subst hqp
          rw [ptLookup_cons_self, hl]
          dsimp only
          rw [getD_set_self hglt]
          exact hdifq q (fun hx => hpidne hx.symm)
        · rw [ptLookup_cons_ne hqp]
          by_cases hqpid : q = (s.pool.getD (s.lru.getLast hne) default).pageID
          · have hlq : ptLookup s.pageTable q = some (s.lru.getLast hne) := by
              rw [hqpid]
              exact mem_ptLookup h2 he0'
            have hlq' : ptLookup (ptErase s.pageTable
                (s.pool.getD (s.lru.getLast hne) default).pageID) q = none := by
              rw [ptLookup_eq_none_iff]
              intro e he2
              rw [hqpid]
              exact (mem_ptErase.mp he2).2
            rw [hlq', hlq]
            dsimp only
            rw [hqpid]
            exact hdifpid
          · cases hlq : ptLookup s.pageTable q with
            | none =>
              have hlq' : ptLookup (ptErase s.pageTable
                  (s.pool.getD (s.lru.getLast hne) default).pageID) q = none := by
                rw [ptLookup_eq_none_iff]
                intro e he2
                exact ptLookup_eq_none_iff.mp hlq e ((ptErase_sublist _ _).mem he2)
              rw [hlq']
              exact hdifq q hqpid
            | some j =>
              have hmemq : (q, j) ∈ s.pageTable := ptLookup_eq_some_mem hlq
              have hmemq' : (q, j) ∈ ptErase s.pageTable
                  (s.pool.getD (s.lru.getLast hne) default).pageID :=
                mem_ptErase.mpr ⟨hmemq, hqpid⟩
              rw [mem_ptLookup hb' hmemq']
              have hne2 : s.lru.getLast hne ≠ j := hfrne _ hmemq'
              dsimp only
              rw [getD_set_ne hne2]

theorem fetchPage_resident (s : BufferState) (p : Int) :
    (ptLookup (fetchPage s p).pageTable p).isSome := by
  cases hl : ptLookup s.pageTable p with
  | some idx =>
    rw [fetchPage_hit hl]
    show (ptLookup s.pageTable p).isSome
    rw [hl]
    rfl
  | none =>
    rw [fetchPage_miss hl]
    by_cases hfull : s.lru.length < BUFFER_CAPACITY
    · rw [evict_notFull hfull]
      show (ptLookup (ptInsert s.pageTable p s.lru.length) p).isSome
      rw [ptInsert_of_none hl, ptLookup_cons_self]
      rfl
    · rw [evict_full hfull]
      have hn' : ptLookup (ptErase s.pageTable
          (s.pool.getD (s.lru.getLast?.getD 0) default).pageID) p = none := by
        rw [ptLookup_eq_none_iff]
        intro e he2
        exact ptLookup_eq_none_iff.mp hl e ((ptErase_sublist _ _).mem he2)
      show (ptLookup (ptInsert (ptErase s.pageTable
        (s.pool.getD (s.lru.getLast?.getD 0) default).pageID) p
        (s.lru.getLast?.getD 0)) p).isSome
      rw [ptInsert_of_none hn', ptLookup_cons_self]
      rfl

theorem fetchPage_keys {s : BufferState} {p : Int} {e : Int × Nat}
    (he : e ∈ (fetchPage s p).pageTable) : e.1 = p ∨ e ∈ s.pageTable := by
  revert he
  cases hl : ptLookup s.pageTable p with
  | some idx =>
    rw [fetchPage_hit hl]
    intro he
    exact Or.inr he
  | none =>
    rw [fetchPage_miss hl]
    by_cases hfull : s.lru.length < BUFFER_CAPACITY
    · rw [evict_notFull hfull]
      intro he
      have he2 : e ∈ ptInsert s.pageTable p s.lru.length := he
      rw [ptInsert_of_none hl] at he2
      rcases List.mem_cons.mp he2 with hq | he3
      · exact Or.inl (by rw [hq])
      · exact Or.inr he3
    · rw [evict_full hfull]
      intro he
      have hn' : ptLookup (ptErase s.pageTable
          (s.pool.getD (s.lru.getLast?.getD 0) default).pageID) p = none := by
        rw [ptLookup_eq_none_iff]
        intro e2 he2
        exact ptLookup_eq_none_iff.mp hl e2 ((ptErase_sublist _ _).mem he2)
      have he2 : e ∈ ptInsert (ptErase s.pageTable
          (s.pool.getD (s.lru.getLast?.getD 0) default).pageID) p
          (s.lru.getLast?.getD 0) := he
      rw [ptInsert_of_none hn'] at he2
      rcases List.mem_cons.mp he2 with hq | he3
      · exact Or.inl (by rw [hq])
      · exact Or.inr ((ptErase_sublist _ _).mem he3)

theorem fetchPage_keysBound {s : BufferState} {p : Int}
    (hp : 0 ≤ p ∧ p < s.nextPageID) (h : KeysBound s) : KeysBound (fetchPage s p) := by
  constructor
  · rw [fetchPage_nextPageID]
    exact h.1
  · intro e he
    rw [fetchPage_nextPageID]
    rcases fetchPage_keys he with hq | he'
    · rw [hq]
      exact hp
    · exact h.2 e he'

theorem setPageData_keysBound {s : BufferState} (p : Int) (d : BPlusNode)
    (h : KeysBound s) : KeysBound (setPageData s p d) := by
  constructor
  · rw [setPageData_nextPageID]
    exact h.1
  · intro e he
    rw [setPageData_nextPageID]
    rw [setPageData_pageTable] at he
    exact h.2 e he

theorem markDirty_keysBound {s : BufferState} (p : Int)
    (h : KeysBound s) : KeysBound (markDirty s p) := by
  constructor
  · rw [markDirty_nextPageID]
    exact h.1
  · intro e he
    rw [markDirty_nextPageID]
    rw [markDirty_pageTable] at he
    exact h.2 e he

theorem markDirty_cleanOK {s : BufferState} (hc : Coherent s) (p : Int)
    (h : CleanOK s) : CleanOK (markDirty s p) := by
  intro e he hd
  rw [markDirty_pageTable] at he
  cases hl : ptLookup s.pageTable p with
  | none =>
    unfold markDirty at hd ⊢
    rw [hl] at hd ⊢
    exact h e he hd
  | some idx =>
    unfold markDirty at hd ⊢
    rw [hl] at hd ⊢
    by_cases hei : idx = e.2
    · exfalso
      have hmem : (p, idx) ∈ s.pageTable := ptLookup_eq_some_mem hl
      have hlt : idx < s.pool.length := by
        rw [hc.1]
        exact (hc.2.2.1 (p, idx) hmem).1
      rw [show ((List.modify (fun fr => { fr with dirty := true }) idx s.pool).getD
        e.2 default).dirty = ((List.modify (fun fr => { fr with dirty := true })
        idx s.pool).getD idx default).dirty from by rw [hei]] at hd
      rw [getD_modify_self _ hlt] at hd
      simp at hd
    · show ((List.modify (fun fr => { fr with dirty := true }) idx s.pool).getD
        e.2 default).data = s.disk e.1
      rw [getD_modify_data (fun fr => { fr with dirty := true }) (fun fr => rfl)]
      rw [getD_modify_ne _ hei] at hd
      exact h e he hd

-- ALLOCATE-PAGE SPECIFICATION

theorem allocatePage_snd (s : BufferState) : (allocatePage s).2 = s.nextPageID := rfl

theorem allocatePage_nextPageID (s : BufferState) :
    (allocatePage s).1.nextPageID = s.nextPageID + 1 := by
  show (markDirty (setPageData (fetchPage { s with nextPageID := s.nextPageID + 1 }
    s.nextPageID) s.nextPageID zeroNode) s.nextPageID).nextPageID = s.nextPageID + 1
  rw [markDirty_nextPageID, setPageData_nextPageID, fetchPage_nextPageID]

theorem allocatePage_resident (s : BufferState) :
    (ptLookup (allocatePage s).1.pageTable (allocatePage s).2).isSome := by
  show (ptLookup (markDirty (setPageData (fetchPage
    { s with nextPageID := s.nextPageID + 1 } s.nextPageID) s.nextPageID zeroNode)
    s.nextPageID).pageTable s.nextPageID).isSome
  rw [markDirty_pageTable, setPageData_pageTable]
  exact fetchPage_resident _ _

theorem getPageData_eq_pageContent {s : BufferState} {p : Int}
    (h : (ptLookup s.pageTable p).isSome) : getPageData s p = pageContent s p := by
  unfold getPageData pageContent
  cases hl : ptLookup s.pageTable p with
  | some idx => rfl
  | none =>
    rw [hl] at h
    simp at h

theorem getPageData_fetch {s : BufferState} (hc : Coherent s) (hclean : CleanOK s)
    (p : Int) : getPageData (fetchPage s p) p = pageContent s p := by
  rw [getPageData_eq_pageContent (fetchPage_resident s p)]
  exact (fetchPage_preserves hc hclean p).2 p

theorem fetchPage_goodBuf {s : BufferState} {p : Int}
    (hp : 0 ≤ p ∧ p < s.nextPageID) (h : GoodBuf s) : GoodBuf (fetchPage s p) :=
  ⟨fetchPage_coherent h.1 p, (fetchPage_preserves h.1 h.2.1 p).1,
    fetchPage_keysBound hp h.2.2⟩

theorem write_mark_cleanOK {s : BufferState} {p : Int} (d : BPlusNode)
    (hc : Coherent s) (hres : (ptLookup s.pageTable p).isSome) (h : CleanOK s) :
    CleanOK (markDirty (setPageData s p d) p) := by
  rcases Option.isSome_iff_exists.mp hres with ⟨idx, hl⟩
  have hmem : (p, idx) ∈ s.pageTable := ptLookup_eq_some_mem hl
  have hlt : idx < s.pool.length := by
    rw [hc.1]
    exact (hc.2.2.1 (p, idx) hmem).1
  have hl3 : ptLookup (setPageData s p d).pageTable p = some idx := by
    rw [setPageData_pageTable]
    exact hl
  intro e he hd
  rw [markDirty_pageTable, setPageData_pageTable] at he
  have hdisk : (markDirty (setPageData s p d) p).disk = s.disk := by
    rw [markDirty_disk, setPageData_disk]
  by_cases hei : e.2 = idx
  · exfalso
    have : frameDirty (markDirty (setPageData s p d) p) p = true :=
      markDirty_frameDirty_self (setPageData_coherent hc p d) hl3
    unfold frameDirty at this
    rw [markDirty_pageTable, hl3] at this
    dsimp only at this
    rw [show ((markDirty (setPageData s p d) p).pool.getD e.2 default).dirty
      = ((markDirty (setPageData s p d) p).pool.getD idx default).dirty from
      by rw [hei]] at hd
    rw [this] at hd
    exact Bool.true_eq_false.mp hd
  · have heprod : (e.1, e.2) ∈ s.pageTable := by
      cases e
      exact he
    have hfd : frameDirty s e.1 = false := by
      have h1 : frameDirty (markDirty (setPageData s p d) p) e.1 = frameDirty s e.1 := by
        have hne2 : e.1 ≠ p := by
          intro hx
          have hexp : e = (p, idx) := ptKeyInj hc.2.1 he hmem hx
          exact hei (by rw [hexp])
        rw [markDirty_frameDirty_ne (setPageData_coherent hc p d) hne2]
        rw [setPageData_frameDirty]
      have h2 : frameDirty (markDirty (setPageData s p d) p) e.1
          = ((markDirty (setPageData s p d) p).pool.getD e.2 default).dirty := by
        unfold frameDirty
        rw [markDirty_pageTable, setPageData_pageTable, mem_ptLookup hc.2.1 heprod]
      rw [← h1, h2]
      exact hd
    have hcontent : pageContent (markDirty (setPageData s p d) p) e.1
        = pageContent s e.1 := by
      have hne2 : e.1 ≠ p := by
        intro hx
        have hexp : e = (p, idx) := ptKeyInj hc.2.1 he hmem hx
        exact hei (by rw [hexp])
      rw [markDirty_pageContent, setPageData_pageContent_ne hc hne2]
    have hl_e : ptLookup s.pageTable e.1 = some e.2 :=
      mem_ptLookup hc.2.1 heprod
    have hl_e' : ptLookup (markDirty (setPageData s p d) p).pageTable e.1
        = some e.2 := by
      rw [markDirty_pageTable, setPageData_pageTable]
      exact hl_e
    have goal1 : ((markDirty (setPageData s p d) p).pool.getD e.2 default).data
        = pageContent (markDirty (setPageData s p d) p) e.1 := by
      unfold pageContent
      rw [hl_e']
    rw [goal1, hcontent, hdisk]
    unfold pageContent
    rw [hl_e]
    unfold frameDirty at hfd
    rw [hl_e] at hfd
    exact h e he hfd

theorem allocatePage_spec {s : BufferState} (h : GoodBuf s) :
    GoodBuf (allocatePage s).1 ∧
    pageContent (allocatePage s).1 s.nextPageID = zeroNode ∧
    frameDirty (allocatePage s).1 s.nextPageID = true ∧
    (∀ q, q ≠ s.nextPageID → pageContent (allocatePage s).1 q = pageContent s q) ∧
    (∀ e ∈ (allocatePage s).1.pageTable, e.1 = s.nextPageID ∨ e ∈ s.pageTable) := by
  obtain ⟨hc, hclean, hkb⟩ := h
  have hs1 : GoodBuf { s with nextPageID := s.nextPageID + 1 } := by
    refine ⟨hc, hclean, ⟨?_, ?_⟩⟩
    · show (0 : Int) ≤ s.nextPageID + 1
      have := hkb.1
      omega
    intro e he
    have := hkb.2 e he
    constructor
    · exact this.1
    · show e.1 < s.nextPageID + 1
      omega
  have hp : (0 : Int) ≤ s.nextPageID ∧
      s.nextPageID < ({ s with nextPageID := s.nextPageID + 1 } : BufferState).nextPageID := by
    refine ⟨hkb.1, ?_⟩
    show s.nextPageID < s.nextPageID + 1
    omega
  have hs2 : GoodBuf (fetchPage { s with nextPageID := s.nextPageID + 1 } s.nextPageID) :=
    fetchPage_goodBuf hp hs1
  have hres2 : (ptLookup (fetchPage { s with nextPageID := s.nextPageID + 1 }
      s.nextPageID).pageTable s.nextPageID).isSome :=
    fetchPage_resident _ _
  rcases Option.isSome_iff_exists.mp hres2 with ⟨idx, hl2⟩
  have halloc : allocatePage s = (markDirty (setPageData (fetchPage
      { s with nextPageID := s.nextPageID + 1 } s.nextPageID) s.nextPageID zeroNode)
      s.nextPageID, s.nextPageID) := rfl
  have hcoh4 : Coherent (allocatePage s).1 := by
    rw [halloc]
    exact markDirty_coherent (setPageData_coherent hs2.1 _ _) _
  have hclean4 : CleanOK (allocatePage s).1 := by
    rw [halloc]
    exact write_mark_cleanOK zeroNode hs2.1 hres2 hs2.2.1
  have hkb4 : KeysBound (allocatePage s).1 := by
    rw [halloc]
    exact markDirty_keysBound _ (setPageData_keysBound _ _ hs2.2.2)
  refine ⟨⟨hcoh4, hclean4, hkb4⟩, ?_, ?_, ?_, ?_⟩
  · rw [halloc]
    show pageContent (markDirty _ _) s.nextPageID = zeroNode
    rw [markDirty_pageContent]
    exact setPageData_pageContent_self hs2.1 hl2 zeroNode
  · rw [halloc]
    show frameDirty (markDirty _ _) s.nextPageID = true
    apply markDirty_frameDirty_self (setPageData_coherent hs2.1 _ _)
    rw [setPageData_pageTable]
    exact hl2
  · intro q hq
    rw [halloc]
    show pageContent (markDirty _ _) q = pageContent s q
    rw [markDirty_pageContent, setPageData_pageContent_ne hs2.1 hq]
    exact (fetchPage_preserves hs1.1 hs1.2.1 s.nextPageID).2 q
  · intro e he
    rw [halloc] at he
    have he2 : e ∈ (fetchPage { s with nextPageID := s.nextPageID + 1 }
        s.nextPageID).pageTable := by
      rw [markDirty_pageTable, setPageData_pageTable] at he
      exact he
    rcases fetchPage_keys he2 with hq | hq
    · exact Or.inl hq
    · exact Or.inr hq

-- CLAIM C5: CACHE COHERENCE OVER ALL CALL SEQUENCES

theorem applyOp_coherent {s : BufferState} (h : Coherent s) (op : BufOp) :
    Coherent (applyOp s op) := by
  cases op with
  | fetch pid => exact fetchPage_coherent h pid
  | alloc =>
    have hx : Coherent { s with nextPageID := s.nextPageID + 1 } := h
    exact markDirty_coherent (setPageData_coherent (fetchPage_coherent hx
      s.nextPageID) s.nextPageID zeroNode) s.nextPageID
  | mark pid => exact markDirty_coherent h pid

theorem applyOps_coherent (ops : List BufOp) :
    ∀ {s : BufferState}, Coherent s → Coherent (applyOps s ops) := by
  induction ops with
  | nil => exact fun h => h
  | cons op rest ih => exact fun h => ih (applyOp_coherent h op)

/-- C5: for every sequence of `fetchPage`/`allocatePage`/`markDirty`
calls starting from the freshly constructed Cache Manager, the reached
state satisfies: a page id is in the Page Table exactly when it is
resident in some recency-tracked frame; each page occupies exactly one
frame; the table never holds more than `BUFFER_CAPACITY` entries; and
the recency list is duplicate-free and in exact 1:1 correspondence with
the Page Table's frames (same members, same length). -/
theorem cache_coherence_all_sequences (ops : List BufOp) :
    (∀ p : Int, (∃ i, (p, i) ∈ (applyOps initBuf ops).pageTable) ↔
      (∃ i, i ∈ (applyOps initBuf ops).lru ∧
        ((applyOps initBuf ops).pool.getD i default).pageID = p)) ∧
    (∀ p i j, (p, i) ∈ (applyOps initBuf ops).pageTable →
      (p, j) ∈ (applyOps initBuf ops).pageTable → i = j) ∧
    (applyOps initBuf ops).pageTable.length ≤ BUFFER_CAPACITY ∧
    (applyOps initBuf ops).lru.Nodup ∧
    ((applyOps initBuf ops).pageTable.map Prod.snd).Nodup ∧
    (∀ i, i ∈ (applyOps initBuf ops).lru ↔
      i ∈ (applyOps initBuf ops).pageTable.map Prod.snd) ∧
    (applyOps initBuf ops).pageTable.length = (applyOps initBuf ops).lru.length := by
  have hcoh : Coherent (applyOps initBuf ops) := applyOps_coherent ops (by decide)
  obtain ⟨h1, h2, h3, h4, h5, h6, h7, h8, h9, h10⟩ := hcoh
  refine ⟨?_, ?_, by omega, h4, h5, ?_, h10⟩
  · intro p
    constructor
    · rintro ⟨i, hmem⟩
      exact ⟨i, h7 (p, i) hmem, (h3 (p, i) hmem).2⟩
    · rintro ⟨i, hil, hpid⟩
      rcases List.mem_map.mp (h6 i hil) with ⟨e, hemem, hesnd⟩
      have he1 : e.1 = p := by
        have h31 := (h3 e hemem).2
        rw [hesnd] at h31
        rw [← h31, hpid]
      refine ⟨i, ?_⟩
      have : e = (p, i) := by
        cases e
        simp only at hesnd he1
        rw [hesnd, he1]
      rw [← this]
      exact hemem
  · intro p i j hi hj
    have heq : ((p, i) : Int × Nat) = (p, j) := ptKeyInj h2 hi hj rfl
    injection heq with heq1 heq2
  · intro i
    constructor
    · exact h6 i
    · intro hv
      rcases List.mem_map.mp hv with ⟨e, hemem, hesnd⟩
      exact hesnd ▸ h7 e hemem

theorem cache_coherence_all_sequences_witness :
    (applyOps initBuf [BufOp.alloc, BufOp.alloc, BufOp.fetch 0, BufOp.alloc,
      BufOp.alloc, BufOp.mark 2]).pageTable.length ≤ BUFFER_CAPACITY :=
  (cache_coherence_all_sequences [BufOp.alloc, BufOp.alloc, BufOp.fetch 0,
    BufOp.alloc, BufOp.alloc, BufOp.mark 2]).2.2.1

-- CLAIM C6: EVICTION POLICY

/-- C6: when fewer than `BUFFER_CAPACITY` frames are occupied, `evict`
hands out the frame whose index equals the current occupancy and changes
nothing (no flush, no removal); otherwise the victim is the tail of the
recency list (the least-recently-used resident frame), its bytes are
written to the Paged Store at its current page id exactly when its dirty
flag is set, and its Page Table entry and recency-list entry are removed
before its frame index is handed out for reuse. -/
theorem evict_contract {s : BufferState} (hc : Coherent s) :
    (s.lru.length < BUFFER_CAPACITY → evict s = (s, s.lru.length)) ∧
    (¬ s.lru.length < BUFFER_CAPACITY →
      ∃ idx pid, s.lru.getLast? = some idx ∧
        ptLookup s.pageTable pid = some idx ∧
        (evict s).2 = idx ∧
        (frameDirty s pid = true →
          (evict s).1.disk = diskWrite s.disk pid (pageContent s pid)) ∧
        (frameDirty s pid = false → (evict s).1.disk = s.disk) ∧
        ptLookup (evict s).1.pageTable pid = none ∧
        (∀ e ∈ s.pageTable, e.1 ≠ pid → e ∈ (evict s).1.pageTable) ∧
        (∀ e ∈ (evict s).1.pageTable, e ∈ s.pageTable) ∧
        (evict s).1.lru = s.lru.dropLast ∧
        idx ∉ (evict s).1.lru ∧
        (evict s).1.pool = s.pool) := by
  obtain ⟨h1, h2, h3, h4, h5, h6, h7, h8, h9, h10⟩ := hc
  constructor
  · intro hfull
    exact evict_notFull hfull
  · intro hfull
    have hcap : s.lru.length = BUFFER_CAPACITY :=
      Nat.le_antisymm h9 (Nat.not_lt.mp hfull)
    have hne : s.lru ≠ [] := by
      intro hx
      rw [hx] at hcap
      simp [BUFFER_CAPACITY] at hcap
    have hgl : s.lru.getLast? = some (s.lru.getLast hne) :=
      List.getLast?_eq_getLast _ hne
    have hidxval : s.lru.getLast?.getD 0 = s.lru.getLast hne := by
      rw [hgl]
      rfl
    have hidxmem : s.lru.getLast hne ∈ s.lru := List.getLast_mem hne
    have hvmem : s.lru.getLast hne ∈ s.pageTable.map Prod.snd := h6 _ hidxmem
    rcases List.mem_map.mp hvmem with ⟨e0, he0mem, he0snd⟩
    have he0eq : e0 = ((s.pool.getD (s.lru.getLast hne) default).pageID,
        s.lru.getLast hne) := by
      have h31 := (h3 e0 he0mem).2
      rw [he0snd] at h31
      cases e0
      simp only at he0snd h31
      simp [← h31, he0snd]
    have he0' : ((s.pool.getD (s.lru.getLast hne) default).pageID, s.lru.getLast hne)
        ∈ s.pageTable := he0eq ▸ he0mem
    have hlk : ptLookup s.pageTable
        (s.pool.getD (s.lru.getLast hne) default).pageID = some (s.lru.getLast hne) :=
      mem_ptLookup h2 he0'
    have hdecomp : s.lru.dropLast ++ [s.lru.getLast hne] = s.lru :=
      List.dropLast_append_getLast hne
    have hnd : (s.lru.dropLast ++ [s.lru.getLast hne]).Nodup := by
      rw [hdecomp]
      exact h4
    have hdl_notmem : s.lru.getLast hne ∉ s.lru.dropLast := by
      intro hx
      exact (List.nodup_append.mp hnd).2.2 hx (List.mem_singleton_self _)
    refine ⟨s.lru.getLast hne, (s.pool.getD (s.lru.getLast hne) default).pageID,
      hgl, hlk, ?_, ?_, ?_, ?_, ?_, ?_, ?_, ?_, ?_⟩
    · rw [evict_full hfull, hidxval]
    · intro hd
      rw [evict_full hfull, hidxval]
      have hfd : frameDirty s (s.pool.getD (s.lru.getLast hne) default).pageID
          = (s.pool.getD (s.lru.getLast hne) default).dirty := by
        unfold frameDirty
        rw [hlk]
      rw [hfd] at hd
      show (if (s.pool.getD (s.lru.getLast hne) default).dirty = true then _ else _) = _
      rw [if_pos hd]
      unfold pageContent
      rw [hlk]
    · intro hd
      rw [evict_full hfull, hidxval]
      have hfd : frameDirty s (s.pool.getD (s.lru.getLast hne) default).pageID
          = (s.pool.getD (s.lru.getLast hne) default).dirty := by
        unfold frameDirty
        rw [hlk]
      rw [hfd] at hd
      show (if (s.pool.getD (s.lru.getLast hne) default).dirty = true then _ else _) = _
      rw [hd]
      simp
    · rw [evict_full hfull, hidxval]
      show ptLookup (ptErase s.pageTable _) _ = none
      rw [ptLookup_eq_none_iff]
      intro e he2
      exact (mem_ptErase.mp he2).2
    · intro e hemem hkey
      rw [evict_full hfull, hidxval]
      exact mem_ptErase.mpr ⟨hemem, hkey⟩
    · intro e hemem
      rw [evict_full hfull, hidxval] at hemem
      exact (ptErase_sublist _ _).mem hemem
    · rw [evict_full hfull, hidxval]
    · rw [evict_full hfull, hidxval]
      exact hdl_notmem
    · rw [evict_full hfull, hidxval]

theorem evict_contract_witness :
    Coherent demoFullBuf ∧ ¬ demoFullBuf.lru.length < BUFFER_CAPACITY ∧
    (∃ idx pid, demoFullBuf.lru.getLast? = some idx ∧
      ptLookup demoFullBuf.pageTable pid = some idx ∧
      (evict demoFullBuf).2 = idx ∧
      (frameDirty demoFullBuf pid = true →
        (evict demoFullBuf).1.disk
          = diskWrite demoFullBuf.disk pid (pageContent demoFullBuf pid)) ∧
      (frameDirty demoFullBuf pid = false →
        (evict demoFullBuf).1.disk = demoFullBuf.disk) ∧
      ptLookup (evict demoFullBuf).1.pageTable pid = none ∧
      (∀ e ∈ demoFullBuf.pageTable, e.1 ≠ pid →
        e ∈ (evict demoFullBuf).1.pageTable) ∧
      (∀ e ∈ (evict demoFullBuf).1.pageTable, e ∈ demoFullBuf.pageTable) ∧
      (evict demoFullBuf).1.lru = demoFullBuf.lru.dropLast ∧
      idx ∉ (evict demoFullBuf).1.lru ∧
      (evict demoFullBuf).1.pool = demoFullBuf.pool) :=
  ⟨by decide, by decide, (evict_contract (by decide)).2 (by decide)⟩

-- CLAIM C9: PAGE ALLOCATION

/-- C9: `allocatePage` returns the current value of the page counter and
bumps it by one, while `fetchPage` and `markDirty` never change the
counter (so allocation results are strictly increasing and never reused
across any call sequence); on return the new page is resident, its
content is the zero-filled node and its frame's dirty flag is set. -/
theorem allocatePage_contract {s : BufferState} (h : GoodBuf s) :
    (allocatePage s).2 = s.nextPageID ∧
    (allocatePage s).1.nextPageID = s.nextPageID + 1 ∧
    (∀ q, (fetchPage s q).nextPageID = s.nextPageID) ∧
    (∀ q, (markDirty s q).nextPageID = s.nextPageID) ∧
    (ptLookup (allocatePage s).1.pageTable (allocatePage s).2).isSome ∧
    pageContent (allocatePage s).1 (allocatePage s).2 = zeroNode ∧
    frameDirty (allocatePage s).1 (allocatePage s).2 = true := by
  have hspec := allocatePage_spec h
  exact ⟨rfl, allocatePage_nextPageID s, fun q => fetchPage_nextPageID s q,
    fun q => markDirty_nextPageID s q, allocatePage_resident s,
    hspec.2.1, hspec.2.2.1⟩

theorem allocatePage_contract_witness :
    GoodBuf initBuf ∧ (allocatePage initBuf).2 = initBuf.nextPageID ∧
    pageContent (allocatePage initBuf).1 (allocatePage initBuf).2 = zeroNode ∧
    frameDirty (allocatePage initBuf).1 (allocatePage initBuf).2 = true :=
  ⟨by decide, (allocatePage_contract (by decide)).1,
    (allocatePage_contract (by decide)).2.2.2.2.2.1,
    (allocatePage_contract (by decide)).2.2.2.2.2.2⟩

-- INTEGER-LIST SET/GET LEMMAS

theorem getD0_set_self {l : List Int} {i : Nat} {a : Int} (h : i < l.length) :
    (l.set i a).getD i 0 = a := by
  rw [List.getD_eq_getElem?_getD, List.getElem?_set]
  simp [h]

theorem getD0_set_ne {l : List Int} {i j : Nat} {a : Int} (h : i ≠ j) :
    (l.set i a).getD j 0 = l.getD j 0 := by
  rw [List.getD_eq_getElem?_getD, List.getD_eq_getElem?_getD, List.getElem?_set]
  simp [h]

theorem set_take_succ {l : List Int} {m : Nat} (h : m < l.length) (v : Int) :
    (l.set m v).take (m + 1) = l.take m ++ [v] := by
  induction l generalizing m with
  | nil => simp at h
  | cons a tl ih =>
    cases m with
    | zero => simp
    | succ m' =>
      simp only [List.set, List.take, List.cons_append, List.cons.injEq, true_and]
      exact ih (by simpa using h) 

theorem take_set_high {l : List Int} {n j : Nat} (h : n ≤ j) (v : Int) :
    (l.set j v).take n = l.take n := by
  induction l generalizing n j with
  | nil => simp
  | cons a tl ih =>
    cases j with
    | zero =>
      have : n = 0 := Nat.le_zero.mp h
      simp [this]
    | succ j' =>
      cases n with
      | zero => simp
      | succ n' =>
        simp only [List.set, List.take, List.cons.injEq, true_and]
        exact ih (by omega) 

theorem take_succ_getD {l : List Int} {m : Nat} (h : m < l.length) :
    l.take (m + 1) = l.take m ++ [l.getD m 0] := by
  rw [List.take_succ]
  rcases List.getElem?_eq_some_iff.mpr ⟨h, rfl⟩ with hx
  rw [List.getD_eq_getElem?_getD, hx]
  rfl

-- SORTING LEMMAS (sortInts models std::sort)

theorem sortInts_sorted (l : List Int) :
    List.Sorted (fun a b => a ≤ b) (sortInts l) :=
  List.sorted_insertionSort _ l

theorem sortInts_perm (l : List Int) : (sortInts l).Perm l :=
  List.perm_insertionSort _ l

theorem sortInts_length (l : List Int) : (sortInts l).length = l.length :=
  (sortInts_perm l).length_eq

theorem orderedInsert_append_last_gt {key a : Int} (h : key < a) (l : List Int) :
    List.orderedInsert (fun x y => x ≤ y) key (l ++ [a])
      = List.orderedInsert (fun x y => x ≤ y) key l ++ [a] := by
  induction l with
  | nil =>
    simp only [List.nil_append, List.orderedInsert]
    rw [if_pos (le_of_lt h)]
    rfl
  | cons b tl ih =>
    simp only [List.cons_append, List.orderedInsert]
    by_cases hb : key ≤ b
    · rw [if_pos hb, if_pos hb]
      rfl
    · rw [if_neg hb, if_neg hb]
      simp only [List.append_eq]
      rw [ih]
      rfl

theorem cons_eq_append_of_all_eq {c : Int} {l : List Int}
    (h : ∀ x ∈ l, x = c) : c :: l = l ++ [c] := by
  induction l with
  | nil => rfl
  | cons b tl ih =>
    have hb : b = c := h b (List.mem_cons_self _ _)
    subst hb
    have := ih (fun x hx => h x (List.mem_cons_of_mem _ hx))
    rw [List.cons_append, ← this]

theorem orderedInsert_all_le {key : Int} {l : List Int}
    (hs : List.Sorted (fun a b => a ≤ b) l) (h : ∀ x ∈ l, x ≤ key) :
    List.orderedInsert (fun x y => x ≤ y) key l = l ++ [key] := by
  induction l with
  | nil => rfl
  | cons b tl ih =>
    simp only [List.orderedInsert]
    by_cases hb : key ≤ b
    · rw [if_pos hb]
      have hbk : b = key :=
        le_antisymm (h b (List.mem_cons_self _ _)) hb
      subst hbk
      have hall : ∀ x ∈ tl, x = b := by
        intro x hx
        exact le_antisymm (h x (List.mem_cons_of_mem _ hx))
          ((List.sorted_cons.mp hs).1 x hx)
      rw [show b :: b :: tl = b :: (b :: tl) from rfl]
      rw [cons_eq_append_of_all_eq (by
        intro x hx
        rcases List.mem_cons.mp hx with hq | hq
        · exact hq
        · exact hall x hq)]
    · rw [if_neg hb]
      rw [ih (List.sorted_cons.mp hs).2
        (fun x hx => h x (List.mem_cons_of_mem _ hx))]
      rfl

theorem sorted_append_all_le {l : List Int} {a : Int}
    (hs : List.Sorted (fun x y => x ≤ y) (l ++ [a])) : ∀ x ∈ l ++ [a], x ≤ a := by
  intro x hx
  rcases List.mem_append.mp hx with hq | hq
  · have := (List.pairwise_append.mp hs).2.2
    exact this x hq a (List.mem_singleton_self _)
  · rw [List.mem_singleton.mp hq]

-- SHIFT-INSERT LEMMAS

theorem insertShift_length (keys : List Int) (key : Int) :
    ∀ n, (insertShift keys key n).length = keys.length := by
  intro n
  induction n generalizing keys with
  | zero => simp [insertShift]
  | succ m ih =>
    unfold insertShift
    by_cases hc : key < keys.getD m 0
    · rw [if_pos hc, ih]
      simp
    · rw [if_neg hc]
      simp

theorem insertShift_getD_high (keys : List Int) (key : Int) :
    ∀ n j, n < j → (insertShift keys key n).getD j 0 = keys.getD j 0 := by
  intro n
  induction n generalizing keys with
  | zero =>
    intro j hj
    unfold insertShift
    exact getD0_set_ne (by omega)
  | succ m ih =>
    intro j hj
    unfold insertShift
    by_cases hc : key < keys.getD m 0
    · rw [if_pos hc, ih _ j (by omega), getD0_set_ne (by omega)]
    · rw [if_neg hc, getD0_set_ne (by omega)]

theorem insertShift_take (key : Int) :
    ∀ n (keys : List Int), n < keys.length →
      List.Sorted (fun a b => a ≤ b) (keys.take n) →
      (insertShift keys key n).take (n + 1)
        = List.orderedInsert (fun a b => a ≤ b) key (keys.take n) := by
  intro n
  induction n with
  | zero =>
    intro keys hlen _
    unfold insertShift
    rw [set_take_succ hlen key]
    rfl
  | succ m ih =>
    intro keys hlen hs
    unfold insertShift
    by_cases hc : key < keys.getD m 0
    · rw [if_pos hc]
      have hlen' : m < (keys.set (m + 1) (keys.getD m 0)).length := by
        rw [List.length_set]
        omega
      have htkm : (keys.set (m + 1) (keys.getD m 0)).take m = keys.take m :=
        take_set_high (by omega) _
      have hsm : List.Sorted (fun a b => a ≤ b)
          ((keys.set (m + 1) (keys.getD m 0)).take m) := by
        rw [htkm]
        have hsub : (keys.take m).Sublist (keys.take (m + 1)) := by
          rw [show keys.take m = (keys.take (m + 1)).take m from by
            rw [List.take_take]
            congr 1
            omega]
          exact List.take_sublist _ _
        exact List.Pairwise.sublist hsub hs
      have hres : (insertShift (keys.set (m + 1) (keys.getD m 0)) key m).take (m + 2)
          = (insertShift (keys.set (m + 1) (keys.getD m 0)) key m).take (m + 1)
            ++ [keys.getD m 0] := by
        have hgd : (insertShift (keys.set (m + 1) (keys.getD m 0)) key m).getD
            (m + 1) 0 = keys.getD m 0 := by
          rw [insertShift_getD_high _ _ m (m + 1) (by omega),
            getD0_set_self (by omega)]
        have hlt : m + 1 < (insertShift (keys.set (m + 1) (keys.getD m 0)) key m).length := by
          rw [insertShift_length, List.length_set]
          omega
        rw [take_succ_getD hlt, hgd]
      rw [hres, ih _ hlen' hsm, htkm]
      rw [take_succ_getD (show m < keys.length from by omega)]
      rw [orderedInsert_append_last_gt hc]
    · rw [if_neg hc]
      rw [set_take_succ hlen key]
      have hall : ∀ x ∈ keys.take (m + 1), x ≤ key := by
        have hdecomp : keys.take (m + 1) = keys.take m ++ [keys.getD m 0] :=
          take_succ_getD (show m < keys.length from by omega)
        intro x hx
        rw [hdecomp] at hx
        have := sorted_append_all_le (hdecomp ▸ hs) x hx
        omega
      rw [orderedInsert_all_le hs hall]

-- COPY-LOOP LEMMAS

theorem copyKeys_length (dst src : List Int) (off : Nat) :
    ∀ n, (copyKeys dst src off n).length = dst.length := by
  intro n
  induction n with
  | zero => rfl
  | succ m ih =>
    unfold copyKeys
    rw [List.length_set, ih]

theorem copyKeys_take (dst src : List Int) (off : Nat) :
    ∀ n, n ≤ dst.length → off + n ≤ src.length →
      (copyKeys dst src off n).take n = (src.drop off).take n := by
  intro n
  induction n with
  | zero => intro _ _; rfl
  | succ m ih =>
    intro hdst hsrc
    unfold copyKeys
    have hlt : m < (copyKeys dst src off m).length := by
      rw [copyKeys_length]
      omega
    rw [set_take_succ hlt _, ih (by omega) (by omega)]
    have hgd : (src.drop off).getD m 0 = src.getD (off + m) 0 := by
      rw [List.getD_eq_getElem?_getD, List.getD_eq_getElem?_getD,
        List.getElem?_drop]
    have hlt2 : m < (src.drop off).length := by
      rw [List.length_drop]
      omega
    rw [take_succ_getD hlt2, hgd]

-- RESIDENCY AFTER FETCH: THE FETCHED PAGE BECOMES MOST-RECENTLY-USED

theorem fetchPage_head (s : BufferState) (p : Int) :
    ∃ i, ptLookup (fetchPage s p).pageTable p = some i ∧
      (fetchPage s p).lru.head? = some i := by
  cases hl : ptLookup s.pageTable p with
  | some idx =>
    rw [fetchPage_hit hl]
    exact ⟨idx, hl, rfl⟩
  | none =>
    rw [fetchPage_miss hl]
    by_cases hfull : s.lru.length < BUFFER_CAPACITY
    · rw [evict_notFull hfull]
      refine ⟨s.lru.length, ?_, rfl⟩
      show ptLookup (ptInsert s.pageTable p s.lru.length) p = some s.lru.length
      rw [ptInsert_of_none hl, ptLookup_cons_self]
    · rw [evict_full hfull]
      have hn' : ptLookup (ptErase s.pageTable
          (s.pool.getD (s.lru.getLast?.getD 0) default).pageID) p = none := by
        rw [ptLookup_eq_none_iff]
        intro e he2
        exact ptLookup_eq_none_iff.mp hl e ((ptErase_sublist _ _).mem he2)
      refine ⟨s.lru.getLast?.getD 0, ?_, rfl⟩
      show ptLookup (ptInsert (ptErase s.pageTable
        (s.pool.getD (s.lru.getLast?.getD 0) default).pageID) p
        (s.lru.getLast?.getD 0)) p = some (s.lru.getLast?.getD 0)
      rw [ptInsert_of_none hn', ptLookup_cons_self]

theorem head_ne_getLast_of_nodup {l : List Nat} (hnd : l.Nodup) (hlen : 2 ≤ l.length)
    {a b : Nat} (ha : l.head? = some a) (hb : l.getLast? = some b) : a ≠ b := by
  cases l with
  | nil => simp at ha
  | cons x rest =>
    cases rest with
    | nil => simp at hlen
    | cons y rs =>
      have hax : a = x := by
        injection ha with h
        exact h.symm
      have hbmem : b ∈ y :: rs := by
        rw [List.getLast?_cons_cons] at hb
        exact List.mem_of_mem_getLast? hb
      subst hax
      intro hab
      exact (List.nodup_cons.mp hnd).1 (hab ▸ hbmem)

theorem fetchPage_keeps_head {s : BufferState} {q : Int} {i : Nat}
    (hc : Coherent s) (hlq : ptLookup s.pageTable q = some i)
    (hhead : s.lru.head? = some i) (p : Int) :
    (ptLookup (fetchPage s p).pageTable q).isSome := by
  by_cases hqp : q = p
  · subst hqp
    exact fetchPage_resident s q
  · obtain ⟨h1, h2, h3, h4, h5, h6, h7, h8, h9, h10⟩ := hc
    cases hl : ptLookup s.pageTable p with
    | some idx =>
      rw [fetchPage_hit hl]
      show (ptLookup s.pageTable q).isSome
      rw [hlq]
      rfl
    | none =>
      rw [fetchPage_miss hl]
      by_cases hfull : s.lru.length < BUFFER_CAPACITY
      · rw [evict_notFull hfull]
        show (ptLookup (ptInsert s.pageTable p s.lru.length) q).isSome
        rw [ptInsert_of_none hl, ptLookup_cons_ne hqp, hlq]
        rfl
      · have hcap : s.lru.length = BUFFER_CAPACITY :=
          Nat.le_antisymm h9 (Nat.not_lt.mp hfull)
        have hne : s.lru ≠ [] := by
          intro hx
          rw [hx] at hcap
          simp [BUFFER_CAPACITY] at hcap
        have hgl : s.lru.getLast? = some (s.lru.getLast hne) :=
          List.getLast?_eq_getLast _ hne
        have hidxval : s.lru.getLast?.getD 0 = s.lru.getLast hne := by
          rw [hgl]
          rfl
        rw [evict_full hfull, hidxval]
        have hidxmem : s.lru.getLast hne ∈ s.lru := List.getLast_mem hne
        have hvmem : s.lru.getLast hne ∈ s.pageTable.map Prod.snd := h6 _ hidxmem
        rcases List.mem_map.mp hvmem with ⟨e0, he0mem, he0snd⟩
        have he0eq : e0 = ((s.pool.getD (s.lru.getLast hne) default).pageID,
            s.lru.getLast hne) := by
          have h31 := (h3 e0 he0mem).2
          rw [he0snd] at h31
          cases e0
          simp only at he0snd h31
          simp [← h31, he0snd]
        have he0' : ((s.pool.getD (s.lru.getLast hne) default).pageID,
            s.lru.getLast hne) ∈ s.pageTable := he0eq ▸ he0mem
        have hb' : ((ptErase s.pageTable
            (s.pool.getD (s.lru.getLast hne) default).pageID).map Prod.fst).Nodup :=
          h2.sublist ((ptErase_sublist _ _).map Prod.fst)
        -- the head of the recency list is not its last element
        have hne_head_last : i ≠ s.lru.getLast hne :=
          head_ne_getLast_of_nodup h4 (by rw [hcap]; decide) hhead hgl
        have hqvict : q ≠ (s.pool.getD (s.lru.getLast hne) default).pageID := by
          intro hx
          have hqmem : (q, i) ∈ s.pageTable := ptLookup_eq_some_mem hlq
          have heq2 : ((q, i) : Int × Nat)
              = ((s.pool.getD (s.lru.getLast hne) default).pageID,
                s.lru.getLast hne) := ptKeyInj h2 hqmem he0' hx
          injection heq2 with hx1 hx2
          exact hne_head_last hx2
        have hqmem' : (q, i) ∈ ptErase s.pageTable
            (s.pool.getD (s.lru.getLast hne) default).pageID :=
          mem_ptErase.mpr ⟨ptLookup_eq_some_mem hlq, hqvict⟩
        have hn' : ptLookup (ptErase s.pageTable
            (s.pool.getD (s.lru.getLast hne) default).pageID) p = none := by
          rw [ptLookup_eq_none_iff]
          intro e he2
          exact ptLookup_eq_none_iff.mp hl e ((ptErase_sublist _ _).mem he2)
        show (ptLookup (ptInsert (ptErase s.pageTable
          (s.pool.getD (s.lru.getLast hne) default).pageID) p
          (s.lru.getLast hne)) q).isSome
        rw [ptInsert_of_none hn', ptLookup_cons_ne hqp, mem_ptLookup hb' hqmem']
        rfl

theorem fetchPage_hit_frameDirty {s : BufferState} {p : Int} {idx : Nat}
    (hl : ptLookup s.pageTable p = some idx) (q : Int) :
    frameDirty (fetchPage s p) q = frameDirty s q := by
  rw [fetchPage_hit hl]
  rfl

theorem setPageData_cleanOK_dirty {s : BufferState} {p : Int} (d : BPlusNode)
    (hc : Coherent s) (hd : frameDirty s p = true) (h : CleanOK s) :
    CleanOK (setPageData s p d) := by
  intro e he hdirty
  rw [setPageData_pageTable] at he
  have heprod : (e.1, e.2) ∈ s.pageTable := by
    cases e
    exact he
  have hl_e : ptLookup s.pageTable e.1 = some e.2 := mem_ptLookup hc.2.1 heprod
  have hdirty2 : frameDirty (setPageData s p d) e.1 = false := by
    unfold frameDirty
    rw [setPageData_pageTable, hl_e]
    exact hdirty
  rw [setPageData_frameDirty] at hdirty2
  have hep : e.1 ≠ p := by
    intro hx
    rw [hx, hd] at hdirty2
    exact Bool.true_eq_false.mp hdirty2
  have hcontent : pageContent (setPageData s p d) e.1 = pageContent s e.1 :=
    setPageData_pageContent_ne hc hep d
  have hgoal : ((setPageData s p d).pool.getD e.2 default).data
      = pageContent (setPageData s p d) e.1 := by
    unfold pageContent
    rw [setPageData_pageTable, hl_e]
  rw [hgoal, hcontent, setPageData_disk]
  unfold pageContent
  rw [hl_e]
  unfold frameDirty at hdirty2
  rw [hl_e] at hdirty2
  exact h e he hdirty2

theorem insertIntoParent_root_exec {t : TreeState} (key right : Int)
    (hg : GoodBuf t.buf) :
    ∃ s2 : BufferState,
      insertIntoParent t t.rootPage key right
        = { buf := s2, rootPage := t.buf.nextPageID } ∧
      GoodBuf s2 ∧ s2.nextPageID = t.buf.nextPageID + 1 ∧
      pageContent s2 t.buf.nextPageID
        = { zeroNode with
            isLeaf := false, keys := zeroNode.keys.set 0 key,
            children := (zeroNode.children.set 0 t.rootPage).set 1 right,
            numKeys := 1 } ∧
      (∀ q, q ≠ t.buf.nextPageID → pageContent s2 q = pageContent t.buf q) := by
  obtain ⟨hga, hzero, hdirty, hpres, hkeys⟩ := allocatePage_spec hg
  have hres : (ptLookup (allocatePage t.buf).1.pageTable t.buf.nextPageID).isSome :=
    allocatePage_resident t.buf
  rcases Option.isSome_iff_exists.mp hres with ⟨idx, hl⟩
  have hbound : (0 : Int) ≤ t.buf.nextPageID ∧
      t.buf.nextPageID < (allocatePage t.buf).1.nextPageID := by
    refine ⟨hg.2.2.1, ?_⟩
    rw [allocatePage_nextPageID]
    omega
  have hgs : GoodBuf (fetchPage (allocatePage t.buf).1 t.buf.nextPageID) :=
    fetchPage_goodBuf hbound hga
  have hnode : getPageData (fetchPage (allocatePage t.buf).1 t.buf.nextPageID)
      t.buf.nextPageID = zeroNode := by
    rw [getPageData_fetch hga.1 hga.2.1]
    exact hzero
  have hfd : frameDirty (fetchPage (allocatePage t.buf).1 t.buf.nextPageID)
      t.buf.nextPageID = true := by
    rw [fetchPage_hit_frameDirty hl]
    exact hdirty
  have hres2 : (ptLookup (fetchPage (allocatePage t.buf).1
      t.buf.nextPageID).pageTable t.buf.nextPageID).isSome :=
    fetchPage_resident _ _
  rcases Option.isSome_iff_exists.mp hres2 with ⟨idx2, hl2⟩
  refine ⟨setPageData (fetchPage (allocatePage t.buf).1 t.buf.nextPageID)
    t.buf.nextPageID
    { (getPageData (fetchPage (allocatePage t.buf).1 t.buf.nextPageID)
        t.buf.nextPageID) with
      isLeaf := false,
      keys := (getPageData (fetchPage (allocatePage t.buf).1 t.buf.nextPageID)
        t.buf.nextPageID).keys.set 0 key,
      children := (((getPageData (fetchPage (allocatePage t.buf).1
        t.buf.nextPageID) t.buf.nextPageID).children.set 0 t.rootPage).set 1 right),
      numKeys := 1 }, ?_, ?_, ?_, ?_, ?_⟩
  · unfold insertIntoParent
    rw [if_pos rfl]
    rfl
  · refine ⟨setPageData_coherent hgs.1 _ _, ?_, setPageData_keysBound _ _ hgs.2.2⟩
    exact setPageData_cleanOK_dirty _ hgs.1 hfd hgs.2.1
  · rw [setPageData_nextPageID, fetchPage_nextPageID, allocatePage_nextPageID]
  · rw [setPageData_pageContent_self hgs.1 hl2]
    rw [hnode]
  · intro q hq
    rw [setPageData_pageContent_ne hgs.1 hq]
    rw [(fetchPage_preserves hga.1 hga.2.1 t.buf.nextPageID).2 q]
    exact hpres q hq

theorem splitLeaf_eq (t : TreeState) (p key : Int) :
    splitLeaf t p key = insertIntoParent
      { buf := splitFinal t p key, rootPage := t.rootPage } p
      (splitPromoted t p key) t.buf.nextPageID := rfl

theorem cleanOK_of_pointwise {s s2 : BufferState}
    (hc2 : Coherent s2)
    (hpt : s2.pageTable = s.pageTable) (hdisk : s2.disk = s.disk)
    (hclean : CleanOK s)
    (hx : ∀ e ∈ s.pageTable, frameDirty s2 e.1 = true ∨
      (pageContent s2 e.1 = pageContent s e.1 ∧
        frameDirty s2 e.1 = frameDirty s e.1)) :
    CleanOK s2 := by
  intro e he hd
  rw [hpt] at he
  have heprod : (e.1, e.2) ∈ s.pageTable := by
    cases e
    exact he
  have hknd : (s.pageTable.map Prod.fst).Nodup := by
    rw [← hpt]
    exact hc2.2.1
  have hl_e : ptLookup s.pageTable e.1 = some e.2 := mem_ptLookup hknd heprod
  have hl_e2 : ptLookup s2.pageTable e.1 = some e.2 := by
    rw [hpt]
    exact hl_e
  have hfd2 : frameDirty s2 e.1 = (s2.pool.getD e.2 default).dirty := by
    unfold frameDirty
    rw [hl_e2]
  rcases hx e he with htrue | ⟨hcnt, hfd⟩
  · exfalso
    rw [hfd2, hd] at htrue
    exact Bool.false_ne_true htrue
  · have h1 : (s2.pool.getD e.2 default).data = pageContent s2 e.1 := by
      unfold pageContent
      rw [hl_e2]
    have h2 : pageContent s e.1 = (s.pool.getD e.2 default).data := by
      unfold pageContent
      rw [hl_e]
    have hfds : frameDirty s e.1 = (s.pool.getD e.2 default).dirty := by
      unfold frameDirty
      rw [hl_e]
    rw [h1, hcnt, h2, hdisk]
    apply hclean e he
    rw [← hfds, ← hfd, hfd2]
    exact hd

theorem splitLeaf_exec {t : TreeState} {p : Int} (key : Int)
    (hg : GoodBuf t.buf) (hp0 : 0 ≤ p) (hpn : p < t.buf.nextPageID)
    (hklen : (pageContent t.buf p).keys.length = MAX_KEYS) :
    GoodBuf (splitFinal t p key) ∧
    (splitFinal t p key).nextPageID = t.buf.nextPageID + 1 ∧
    splitTemp t p key = sortInts ((pageContent t.buf p).keys ++ [key]) ∧
    pageContent (splitFinal t p key) p = { (pageContent t.buf p) with
      numKeys := (MAX_KEYS + 1) / 2,
      keys := copyKeys (pageContent t.buf p).keys (splitTemp t p key) 0
        ((MAX_KEYS + 1) / 2) } ∧
    pageContent (splitFinal t p key) t.buf.nextPageID = { zeroNode with
      isLeaf := true,
      numKeys := (MAX_KEYS + 1) - (MAX_KEYS + 1) / 2,
      keys := copyKeys zeroNode.keys (splitTemp t p key) ((MAX_KEYS + 1) / 2)
        ((MAX_KEYS + 1) - (MAX_KEYS + 1) / 2) } ∧
    splitPromoted t p key = (splitTemp t p key).getD ((MAX_KEYS + 1) / 2) 0 ∧
    frameDirty (splitFinal t p key) p = true ∧
    frameDirty (splitFinal t p key) t.buf.nextPageID = true ∧
    (∀ q, q ≠ p → q ≠ t.buf.nextPageID →
      pageContent (splitFinal t p key) q = pageContent t.buf q) := by
  obtain ⟨hga, hzeroN, hdirtyN, hpresA, hkeysA⟩ := allocatePage_spec hg
  have hga' : GoodBuf (splitA t) := hga
  have hpneN : p ≠ t.buf.nextPageID := by omega
  have hNnep : t.buf.nextPageID ≠ p := by omega
  have hNpos : (0 : Int) ≤ t.buf.nextPageID := hg.2.2.1
  have hbound1 : (0 : Int) ≤ p ∧ p < (splitA t).nextPageID := by
    refine ⟨hp0, ?_⟩
    show p < (allocatePage t.buf).1.nextPageID
    rw [allocatePage_nextPageID]
    omega
  have hgs1 : GoodBuf (splitS1 t p) := fetchPage_goodBuf hbound1 hga'
  obtain ⟨ip1, hlp1, hheadp1⟩ := fetchPage_head (splitA t) p
  have hlp1' : ptLookup (splitS1 t p).pageTable p = some ip1 := hlp1
  have hheadp1' : (splitS1 t p).lru.head? = some ip1 := hheadp1
  have hbound2 : (0 : Int) ≤ t.buf.nextPageID ∧
      t.buf.nextPageID < (splitS1 t p).nextPageID := by
    refine ⟨hNpos, ?_⟩
    show t.buf.nextPageID < (fetchPage (splitA t) p).nextPageID
    rw [fetchPage_nextPageID]
    show t.buf.nextPageID < (allocatePage t.buf).1.nextPageID
    rw [allocatePage_nextPageID]
    omega
  have hgs2 : GoodBuf (splitS2 t p) := fetchPage_goodBuf hbound2 hgs1
  have hresN2 : (ptLookup (splitS2 t p).pageTable t.buf.nextPageID).isSome :=
    fetchPage_resident (splitS1 t p) t.buf.nextPageID
  have hresp2 : (ptLookup (splitS2 t p).pageTable p).isSome :=
    fetchPage_keeps_head hgs1.1 hlp1' hheadp1' t.buf.nextPageID
  rcases Option.isSome_iff_exists.mp hresN2 with ⟨jN, hlN2⟩
  rcases Option.isSome_iff_exists.mp hresp2 with ⟨jp, hlp2⟩
  have hc2 : ∀ q, pageContent (splitS2 t p) q = pageContent (splitA t) q := by
    intro q
    show pageContent (fetchPage (splitS1 t p) t.buf.nextPageID) q = _
    rw [(fetchPage_preserves hgs1.1 hgs1.2.1 t.buf.nextPageID).2 q]
    show pageContent (fetchPage (splitA t) p) q = _
    rw [(fetchPage_preserves hga'.1 hga'.2.1 p).2 q]
  have hc2p : pageContent (splitS2 t p) p = pageContent t.buf p := by
    rw [hc2 p]
    show pageContent (allocatePage t.buf).1 p = _
    exact hpresA p hpneN
  have hc2N : pageContent (splitS2 t p) t.buf.nextPageID = zeroNode := by
    rw [hc2 t.buf.nextPageID]
    exact hzeroN
  have hg2p : getPageData (splitS2 t p) p = pageContent t.buf p := by
    rw [getPageData_eq_pageContent hresp2]
    exact hc2p
  have hg2N : getPageData (splitS2 t p) t.buf.nextPageID = zeroNode := by
    rw [getPageData_eq_pageContent hresN2]
    exact hc2N
  have htemp : splitTemp t p key = sortInts ((pageContent t.buf p).keys ++ [key]) := by
    unfold splitTemp
    rw [hg2p]
    rw [show (pageContent t.buf p).keys.take MAX_KEYS = (pageContent t.buf p).keys
      from by rw [← hklen]; exact List.take_length _]
  -- stage 3
  have hcoh3 : Coherent (splitS3 t p) := setPageData_coherent hgs2.1 _ _
  have htab3 : (splitS3 t p).pageTable = (splitS2 t p).pageTable := by
    unfold splitS3
    rw [setPageData_pageTable]
  have hlN3 : ptLookup (splitS3 t p).pageTable t.buf.nextPageID = some jN := by
    rw [htab3]
    exact hlN2
  have hlp3 : ptLookup (splitS3 t p).pageTable p = some jp := by
    rw [htab3]
    exact hlp2
  have hc3N : pageContent (splitS3 t p) t.buf.nextPageID
      = { zeroNode with isLeaf := true } := by
    unfold splitS3
    rw [setPageData_pageContent_self hgs2.1 hlN2, hg2N]
  have hc3p : pageContent (splitS3 t p) p = pageContent t.buf p := by
    unfold splitS3
    rw [setPageData_pageContent_ne hgs2.1 hpneN]
    exact hc2p
  have hg3p : getPageData (splitS3 t p) p = pageContent t.buf p := by
    rw [getPageData_eq_pageContent (by rw [hlp3]; rfl)]
    exact hc3p
  -- stage 4
  have hcoh4 : Coherent (splitS4 t p) := setPageData_coherent hcoh3 _ _
  have htab4 : (splitS4 t p).pageTable = (splitS2 t p).pageTable := by
    unfold splitS4
    rw [setPageData_pageTable]
    exact htab3
  have hlN4 : ptLookup (splitS4 t p).pageTable t.buf.nextPageID = some jN := by
    rw [htab4]
    exact hlN2
  have hlp4 : ptLookup (splitS4 t p).pageTable p = some jp := by
    rw [htab4]
    exact hlp2
  have hc4p : pageContent (splitS4 t p) p
      = { (pageContent t.buf p) with numKeys := (MAX_KEYS + 1) / 2 } := by
    unfold splitS4
    rw [setPageData_pageContent_self hcoh3 hlp3, hg3p]
  have hc4N : pageContent (splitS4 t p) t.buf.nextPageID
      = { zeroNode with isLeaf := true } := by
    unfold splitS4
    rw [setPageData_pageContent_ne hcoh3 hNnep]
    exact hc3N
  have hg4N : getPageData (splitS4 t p) t.buf.nextPageID
      = { zeroNode with isLeaf := true } := by
    rw [getPageData_eq_pageContent (by rw [hlN4]; rfl)]
    exact hc4N
  -- stage 5
  have hcoh5 : Coherent (splitS5 t p) := setPageData_coherent hcoh4 _ _
  have htab5 : (splitS5 t p).pageTable = (splitS2 t p).pageTable := by
    unfold splitS5
    rw [setPageData_pageTable]
    exact htab4
  have hlN5 : ptLookup (splitS5 t p).pageTable t.buf.nextPageID = some jN := by
    rw [htab5]
    exact hlN2
  have hlp5 : ptLookup (splitS5 t p).pageTable p = some jp := by
    rw [htab5]
    exact hlp2
  have hc5N : pageContent (splitS5 t p) t.buf.nextPageID
      = { zeroNode with
          isLeaf := true,
          numKeys := (MAX_KEYS + 1) - (MAX_KEYS + 1) / 2 } := by
    unfold splitS5
    rw [setPageData_pageContent_self hcoh4 hlN4, hg4N]
  have hc5p : pageContent (splitS5 t p) p
      = { (pageContent t.buf p) with numKeys := (MAX_KEYS + 1) / 2 } := by
    unfold splitS5
    rw [setPageData_pageContent_ne hcoh4 hpneN]
    exact hc4p
  have hg5p : getPageData (splitS5 t p) p
      = { (pageContent t.buf p) with numKeys := (MAX_KEYS + 1) / 2 } := by
    rw [getPageData_eq_pageContent (by rw [hlp5]; rfl)]
    exact hc5p
  -- stage 6
  have hcoh6 : Coherent (splitS6 t p key) := setPageData_coherent hcoh5 _ _
  have htab6 : (splitS6 t p key).pageTable = (splitS2 t p).pageTable := by
    unfold splitS6
    rw [setPageData_pageTable]
    exact htab5
  have hlN6 : ptLookup (splitS6 t p key).pageTable t.buf.nextPageID = some jN := by
    rw [htab6]
    exact hlN2
  have hlp6 : ptLookup (splitS6 t p key).pageTable p = some jp := by
    rw [htab6]
    exact hlp2
  have hc6p : pageContent (splitS6 t p key) p
      = { (pageContent t.buf p) with
          numKeys := (MAX_KEYS + 1) / 2,
          keys := copyKeys (pageContent t.buf p).keys (splitTemp t p key) 0
            ((MAX_KEYS + 1) / 2) } := by
    unfold splitS6
    rw [setPageData_pageContent_self hcoh5 hlp5, hg5p]
  have hc6N : pageContent (splitS6 t p key) t.buf.nextPageID
      = { zeroNode with
          isLeaf := true,
          numKeys := (MAX_KEYS + 1) - (MAX_KEYS + 1) / 2 } := by
    unfold splitS6
    rw [setPageData_pageContent_ne hcoh5 hNnep]
    exact hc5N
  have hg6N : getPageData (splitS6 t p key) t.buf.nextPageID
      = { zeroNode with
          isLeaf := true,
          numKeys := (MAX_KEYS + 1) - (MAX_KEYS + 1) / 2 } := by
    rw [getPageData_eq_pageContent (by rw [hlN6]; rfl)]
    exact hc6N
  -- stage 7
  have hcoh7 : Coherent (splitS7 t p key) := setPageData_coherent hcoh6 _ _
  have htab7 : (splitS7 t p key).pageTable = (splitS2 t p).pageTable := by
    unfold splitS7
    rw [setPageData_pageTable]
    exact htab6
  have hlN7 : ptLookup (splitS7 t p key).pageTable t.buf.nextPageID = some jN := by
    rw [htab7]
    exact hlN2
  have hlp7 : ptLookup (splitS7 t p key).pageTable p = some jp := by
    rw [htab7]
    exact hlp2
  have hc7N : pageContent (splitS7 t p key) t.buf.nextPageID
      = { zeroNode with
          isLeaf := true,
          numKeys := (MAX_KEYS + 1) - (MAX_KEYS + 1) / 2,
          keys := copyKeys zeroNode.keys (splitTemp t p key) ((MAX_KEYS + 1) / 2)
            ((MAX_KEYS + 1) - (MAX_KEYS + 1) / 2) } := by
    unfold splitS7
    rw [setPageData_pageContent_self hcoh6 hlN6, hg6N]
  have hc7p : pageContent (splitS7 t p key) p
      = { (pageContent t.buf p) with
          numKeys := (MAX_KEYS + 1) / 2,
          keys := copyKeys (pageContent t.buf p).keys (splitTemp t p key) 0
            ((MAX_KEYS + 1) / 2) } := by
    unfold splitS7
    rw [setPageData_pageContent_ne hcoh6 hpneN]
    exact hc6p
  -- the two markDirty calls
  have hcoh8 : Coherent (markDirty (splitS7 t p key) p) :=
    markDirty_coherent hcoh7 p
  have hcoh9 : Coherent (splitFinal t p key) := markDirty_coherent hcoh8 _
  have hlN8 : ptLookup (markDirty (splitS7 t p key) p).pageTable
      t.buf.nextPageID = some jN := by
    rw [markDirty_pageTable]
    exact hlN7
  have hfd8p : frameDirty (markDirty (splitS7 t p key) p) p = true :=
    markDirty_frameDirty_self hcoh7 hlp7
  have hfd9p : frameDirty (splitFinal t p key) p = true := by
    unfold splitFinal
    rw [markDirty_frameDirty_ne hcoh8 hpneN]
    exact hfd8p
  have hfd9N : frameDirty (splitFinal t p key) t.buf.nextPageID = true :=
    markDirty_frameDirty_self hcoh8 hlN8
  have hc9p : pageContent (splitFinal t p key) p
      = { (pageContent t.buf p) with
          numKeys := (MAX_KEYS + 1) / 2,
          keys := copyKeys (pageContent t.buf p).keys (splitTemp t p key) 0
            ((MAX_KEYS + 1) / 2) } := by
    unfold splitFinal
    rw [markDirty_pageContent, markDirty_pageContent]
    exact hc7p
  have hc9N : pageContent (splitFinal t p key) t.buf.nextPageID
      = { zeroNode with
          isLeaf := true,
          numKeys := (MAX_KEYS + 1) - (MAX_KEYS + 1) / 2,
          keys := copyKeys zeroNode.keys (splitTemp t p key) ((MAX_KEYS + 1) / 2)
            ((MAX_KEYS + 1) - (MAX_KEYS + 1) / 2) } := by
    unfold splitFinal
    rw [markDirty_pageContent, markDirty_pageContent]
    exact hc7N
  have htabF : (splitFinal t p key).pageTable = (splitS2 t p).pageTable := by
    unfold splitFinal
    rw [markDirty_pageTable, markDirty_pageTable]
    exact htab7
  have hlNF : ptLookup (splitFinal t p key).pageTable t.buf.nextPageID = some jN := by
    rw [htabF]
    exact hlN2
  have hc9q : ∀ q, q ≠ p → q ≠ t.buf.nextPageID →
      pageContent (splitFinal t p key) q = pageContent (splitS2 t p) q := by
    intro q hqp hqN
    unfold splitFinal
    rw [markDirty_pageContent, markDirty_pageContent]
    unfold splitS7
    rw [setPageData_pageContent_ne hcoh6 hqN]
    unfold splitS6
    rw [setPageData_pageContent_ne hcoh5 hqp]
    unfold splitS5
    rw [setPageData_pageContent_ne hcoh4 hqN]
    unfold splitS4
    rw [setPageData_pageContent_ne hcoh3 hqp]
    unfold splitS3
    rw [setPageData_pageContent_ne hgs2.1 hqN]
  have hc9q' : ∀ q, q ≠ p → q ≠ t.buf.nextPageID →
      pageContent (splitFinal t p key) q = pageContent t.buf q := by
    intro q hqp hqN
    rw [hc9q q hqp hqN, hc2 q]
    show pageContent (allocatePage t.buf).1 q = _
    exact hpresA q hqN
  have hfd9q : ∀ q, q ≠ p → q ≠ t.buf.nextPageID →
      frameDirty (splitFinal t p key) q = frameDirty (splitS2 t p) q := by
    intro q hqp hqN
    unfold splitFinal
    rw [markDirty_frameDirty_ne hcoh8 hqN, markDirty_frameDirty_ne hcoh7 hqp]
    unfold splitS7
    rw [setPageData_frameDirty]
    unfold splitS6
    rw [setPageData_frameDirty]
    unfold splitS5
    rw [setPageData_frameDirty]
    unfold splitS4
    rw [setPageData_frameDirty]
    unfold splitS3
    rw [setPageData_frameDirty]
  have hdiskF : (splitFinal t p key).disk = (splitS2 t p).disk := by
    unfold splitFinal
    rw [markDirty_disk, markDirty_disk]
    unfold splitS7
    rw [setPageData_disk]
    unfold splitS6
    rw [setPageData_disk]
    unfold splitS5
    rw [setPageData_disk]
    unfold splitS4
    rw [setPageData_disk]
    unfold splitS3
    rw [setPageData_disk]
  have hcleanF : CleanOK (splitFinal t p key) := by
    apply cleanOK_of_pointwise hcoh9 htabF hdiskF hgs2.2.1
    intro e he
    by_cases hep : e.1 = p
    · left
      rw [hep]
      exact hfd9p
    · by_cases heN : e.1 = t.buf.nextPageID
      · left
        rw [heN]
        exact hfd9N
      · right
        exact ⟨hc9q e.1 hep heN, hfd9q e.1 hep heN⟩
  have hkbF : KeysBound (splitFinal t p key) := by
    unfold splitFinal
    apply markDirty_keysBound
    apply markDirty_keysBound
    unfold splitS7
    apply setPageData_keysBound
    unfold splitS6
    apply setPageData_keysBound
    unfold splitS5
    apply setPageData_keysBound
    unfold splitS4
    apply setPageData_keysBound
    unfold splitS3
    apply setPageData_keysBound
    exact hgs2.2.2
  have hnextF : (splitFinal t p key).nextPageID = t.buf.nextPageID + 1 := by
    unfold splitFinal
    rw [markDirty_nextPageID, markDirty_nextPageID]
    unfold splitS7
    rw [setPageData_nextPageID]
    unfold splitS6
    rw [setPageData_nextPageID]
    unfold splitS5
    rw [setPageData_nextPageID]
    unfold splitS4
    rw [setPageData_nextPageID]
    unfold splitS3
    rw [setPageData_nextPageID]
    unfold splitS2
    rw [fetchPage_nextPageID]
    unfold splitS1
    rw [fetchPage_nextPageID]
    unfold splitA
    rw [allocatePage_nextPageID]
  have hprom : splitPromoted t p key = (splitTemp t p key).getD ((MAX_KEYS + 1) / 2) 0 := by
    unfold splitPromoted
    rw [getPageData_eq_pageContent (by rw [hlNF]; rfl)]
    rw [hc9N]
    show (copyKeys zeroNode.keys (splitTemp t p key) ((MAX_KEYS + 1) / 2)
      ((MAX_KEYS + 1) - (MAX_KEYS + 1) / 2)).getD 0 0 = _
    rfl
  exact ⟨⟨hcoh9, hcleanF, hkbF⟩, hnextF, htemp, hc9p, hc9N, hprom, hfd9p, hfd9N, hc9q'⟩

-- BRANCHES OF insertIntoLeaf

theorem insertIntoLeaf_room_eq {t : TreeState} {p : Int} (key : Int)
    (hcond : (getPageData (fetchPage t.buf p) p).numKeys < MAX_KEYS) :
    insertIntoLeaf t p key = { t with
      buf := markDirty (setPageData (fetchPage t.buf p) p
        { (getPageData (fetchPage t.buf p) p) with
          keys := insertShift (getPageData (fetchPage t.buf p) p).keys key
            (getPageData (fetchPage t.buf p) p).numKeys,
          numKeys := (getPageData (fetchPage t.buf p) p).numKeys + 1 }) p } := by
  show (if (getPageData (fetchPage t.buf p) p).numKeys < MAX_KEYS then _ else
    splitLeaf { t with buf := fetchPage t.buf p } p key) = _
  rw [if_pos hcond]

theorem insertIntoLeaf_full_eq {t : TreeState} {p : Int} (key : Int)
    (hcond : ¬ (getPageData (fetchPage t.buf p) p).numKeys < MAX_KEYS) :
    insertIntoLeaf t p key = splitLeaf { t with buf := fetchPage t.buf p } p key := by
  show (if (getPageData (fetchPage t.buf p) p).numKeys < MAX_KEYS then
    { t with buf := markDirty (setPageData (fetchPage t.buf p) p
      { (getPageData (fetchPage t.buf p) p) with
        keys := insertShift (getPageData (fetchPage t.buf p) p).keys key
          (getPageData (fetchPage t.buf p) p).numKeys,
        numKeys := (getPageData (fetchPage t.buf p) p).numKeys + 1 }) p }
    else splitLeaf { t with buf := fetchPage t.buf p } p key) = _
  rw [if_neg hcond]

-- STEPS OF findLeaf

theorem findLeaf_leaf_step {s : BufferState} {p : Int} (key : Int) (fuel : Nat)
    (hc : Coherent s) (hclean : CleanOK s)
    (hleaf : (pageContent s p).isLeaf = true) :
    findLeaf (fuel + 1) s p key = (fetchPage s p, p) := by
  have hcond : (getPageData (fetchPage s p) p).isLeaf = true := by
    rw [getPageData_fetch hc hclean]
    exact hleaf
  show (if (getPageData (fetchPage s p) p).isLeaf = true then (fetchPage s p, p)
    else findLeaf fuel (fetchPage s p)
      ((getPageData (fetchPage s p) p).children.getD
        (childIndex (getPageData (fetchPage s p) p) key) 0) key) = _
  rw [if_pos hcond]

theorem findLeaf_internal_step {s : BufferState} {p : Int} (key : Int) (fuel : Nat)
    (hc : Coherent s) (hclean : CleanOK s)
    (hleaf : (pageContent s p).isLeaf = false) :
    findLeaf (fuel + 1) s p key = findLeaf fuel (fetchPage s p)
      ((pageContent s p).children.getD (childIndex (pageContent s p) key) 0) key := by
  have hcond : ¬ (getPageData (fetchPage s p) p).isLeaf = true := by
    rw [getPageData_fetch hc hclean, hleaf]
    exact Bool.false_ne_true
  show (if (getPageData (fetchPage s p) p).isLeaf = true then (fetchPage s p, p)
    else findLeaf fuel (fetchPage s p)
      ((getPageData (fetchPage s p) p).children.getD
        (childIndex (getPageData (fetchPage s p) p) key) 0) key) = _
  rw [if_neg hcond, getPageData_fetch hc hclean]

theorem childIndex_root {n : BPlusNode} (key : Int) (h : rootOK n) :
    childIndex n key = if n.keys.getD 0 0 ≤ key then 1 else 0 := by
  obtain ⟨h1, h2, h3, h4, h5, h6, h7, h8⟩ := h
  unfold childIndex
  rw [h2]
  cases hk : n.keys with
  | nil =>
    rw [hk] at h3
    simp [MAX_KEYS] at h3
  | cons k0 rest =>
    show (List.takeWhile (fun k => decide (k ≤ key)) [k0]).length
      = if (k0 :: rest).getD 0 0 ≤ key then 1 else 0
    have hg : (k0 :: rest).getD 0 0 = k0 := rfl
    rw [hg]
    by_cases hc : k0 ≤ key
    · rw [if_pos hc]
      simp [List.takeWhile, hc]
    · rw [if_neg hc]
      simp [List.takeWhile, hc]

-- WELL-FORMEDNESS OF LEAF IMAGES PRODUCED BY THE INSERT PATHS

theorem leafOK_insertShift {n : BPlusNode} (key : Int) (h : leafOK n)
    (hroom : n.numKeys < MAX_KEYS) :
    leafOK { n with
             keys := insertShift n.keys key n.numKeys,
             numKeys := n.numKeys + 1 } := by
  obtain ⟨h1, h2, h3, h4, h5⟩ := h
  refine ⟨h1, ?_, ?_, h4, ?_⟩
  · show n.numKeys + 1 ≤ MAX_KEYS
    omega
  · show (insertShift n.keys key n.numKeys).length = MAX_KEYS
    rw [insertShift_length]
    exact h3
  · show List.Sorted (fun a b => a ≤ b)
      ((insertShift n.keys key n.numKeys).take (n.numKeys + 1))
    rw [insertShift_take key n.numKeys n.keys (by omega) h5]
    exact List.Sorted.orderedInsert key _ h5

theorem leafOK_splitOld {old : BPlusNode} {temp : List Int}
    (h : leafOK old) (hs : List.Sorted (fun a b => a ≤ b) temp)
    (hlen : temp.length = MAX_KEYS + 1) :
    leafOK { old with
             numKeys := (MAX_KEYS + 1) / 2,
             keys := copyKeys old.keys temp 0 ((MAX_KEYS + 1) / 2) } := by
  obtain ⟨h1, h2, h3, h4, h5⟩ := h
  refine ⟨h1, ?_, ?_, h4, ?_⟩
  · show (MAX_KEYS + 1) / 2 ≤ MAX_KEYS
    decide
  · show (copyKeys old.keys temp 0 ((MAX_KEYS + 1) / 2)).length = MAX_KEYS
    rw [copyKeys_length]
    exact h3
  · show List.Sorted (fun a b => a ≤ b)
      ((copyKeys old.keys temp 0 ((MAX_KEYS + 1) / 2)).take ((MAX_KEYS + 1) / 2))
    rw [copyKeys_take old.keys temp 0 ((MAX_KEYS + 1) / 2)
      (by rw [h3]; decide) (by rw [hlen]; decide)]
    rw [List.drop_zero]
    exact List.Pairwise.sublist (List.take_sublist _ _) hs

theorem leafOK_splitNew {temp : List Int}
    (hs : List.Sorted (fun a b => a ≤ b) temp)
    (hlen : temp.length = MAX_KEYS + 1) :
    leafOK { zeroNode with
             isLeaf := true,
             numKeys := (MAX_KEYS + 1) - (MAX_KEYS + 1) / 2,
             keys := copyKeys zeroNode.keys temp ((MAX_KEYS + 1) / 2)
               ((MAX_KEYS + 1) - (MAX_KEYS + 1) / 2) } := by
  refine ⟨rfl, ?_, ?_, ?_, ?_⟩
  · show (MAX_KEYS + 1) - (MAX_KEYS + 1) / 2 ≤ MAX_KEYS
    decide
  · show (copyKeys zeroNode.keys temp ((MAX_KEYS + 1) / 2)
      ((MAX_KEYS + 1) - (MAX_KEYS + 1) / 2)).length = MAX_KEYS
    rw [copyKeys_length]
    decide
  · show zeroNode.children.length = MAX_KEYS + 1
    decide
  · show List.Sorted (fun a b => a ≤ b)
      ((copyKeys zeroNode.keys temp ((MAX_KEYS + 1) / 2)
        ((MAX_KEYS + 1) - (MAX_KEYS + 1) / 2)).take
          ((MAX_KEYS + 1) - (MAX_KEYS + 1) / 2))
    rw [copyKeys_take zeroNode.keys temp ((MAX_KEYS + 1) / 2)
      ((MAX_KEYS + 1) - (MAX_KEYS + 1) / 2) (by decide) (by rw [hlen]; decide)]
    exact List.Pairwise.sublist
      ((List.take_sublist _ _).trans (List.drop_sublist _ _)) hs

/-- CLAIM C1: whenever `insertIntoParent(left, key, right)` is called with
`left` different from the current root page, the call is a complete no-op:
the whole tree state (root reference, buffer pool, page table, recency list,
disk image, allocation counter) is returned unchanged, so the promoted key
and the new sibling page `right` are dropped from the index and no page
reachable from the root is modified. -/
theorem insertIntoParent_nonroot (t : TreeState) (left key right : Int)
    (h : left ≠ t.rootPage) :
    insertIntoParent t left key right = t ∧
    (insertIntoParent t left key right).rootPage = t.rootPage ∧
    ∀ q, pageContent (insertIntoParent t left key right).buf q
      = pageContent t.buf q := by
  have he : insertIntoParent t left key right = t := by
    unfold insertIntoParent
    rw [if_neg h]
  exact ⟨he, by rw [he], fun q => by rw [he]⟩

theorem insertIntoParent_nonroot_witness :
    insertIntoParent newTree 5 30 1 = newTree :=
  (insertIntoParent_nonroot newTree 5 30 1 (by decide)).1

/-- CLAIM C2: under the reference configuration (PAGE_SIZE = 4096,
BUFFER_CAPACITY = 3, MAX_KEYS = 3), inserting 10, 20, 30, 40, 50 into a
fresh tree ends with leaf page 0 holding exactly [10, 20], leaf page 1
holding exactly [30, 40, 50], an internal root on page 2 with single key 30
and children [0, 1], exactly three pages allocated (next page id 3), and
zero evictions over the whole sequence. -/
theorem demo_sequence_exact :
    PAGE_SIZE = 4096 ∧ BUFFER_CAPACITY = 3 ∧ MAX_KEYS = 3 ∧
    demoTree.rootPage = 2 ∧
    demoTree.buf.nextPageID = 3 ∧
    demoTree.buf.evictCount = 0 ∧
    (pageContent demoTree.buf 0).isLeaf = true ∧
    (pageContent demoTree.buf 0).numKeys = 2 ∧
    (pageContent demoTree.buf 0).keys.take 2 = [10, 20] ∧
    (pageContent demoTree.buf 1).isLeaf = true ∧
    (pageContent demoTree.buf 1).numKeys = 3 ∧
    (pageContent demoTree.buf 1).keys.take 3 = [30, 40, 50] ∧
    (pageContent demoTree.buf 2).isLeaf = false ∧
    (pageContent demoTree.buf 2).numKeys = 1 ∧
    (pageContent demoTree.buf 2).keys.take 1 = [30] ∧
    (pageContent demoTree.buf 2).children.take 2 = [0, 1] := by
  decide

theorem takeWhile_length_spec (p : Int → Bool) (l : List Int) :
    ((l.takeWhile p).length ≤ l.length) ∧
    (∀ i, i < (l.takeWhile p).length → p (l.getD i 0) = true) ∧
    ((l.takeWhile p).length < l.length →
      p (l.getD (l.takeWhile p).length 0) = false) := by
  induction l with
  | nil =>
    refine ⟨Nat.le_refl 0, ?_, ?_⟩
    · intro i hi
      simp at hi
    · intro hlt
      simp at hlt
  | cons a l ih =>
    cases hpa : p a with
    | true =>
      have ht : (a :: l).takeWhile p = a :: l.takeWhile p := by
        simp [List.takeWhile, hpa]
      refine ⟨?_, ?_, ?_⟩
      · rw [ht]
        simp only [List.length_cons]
        exact Nat.succ_le_succ ih.1
      · intro i hi
        rw [ht] at hi
        cases i with
        | zero =>
          rw [List.getD_cons_zero]
          exact hpa
        | succ j =>
          have hj : j < (l.takeWhile p).length := by
            simpa using hi
          rw [List.getD_cons_succ]
          exact ih.2.1 j hj
      · intro hlt
        rw [ht] at hlt
        simp only [List.length_cons] at hlt
        rw [ht]
        simp only [List.length_cons]
        rw [List.getD_cons_succ]
        exact ih.2.2 (Nat.lt_of_succ_lt_succ hlt)
    | false =>
      have ht : (a :: l).takeWhile p = [] := by
        simp [List.takeWhile, hpa]
      refine ⟨?_, ?_, ?_⟩
      · rw [ht]
        simp
      · intro i hi
        rw [ht] at hi
        simp at hi
      · intro hlt
        rw [ht]
        simp only [List.length_nil]
        rw [List.getD_cons_zero]
        exact hpa

theorem getD_take_lt (l : List Int) (n i : Nat) (h : i < n) :
    (l.take n).getD i 0 = l.getD i 0 := by
  rw [List.getD_eq_getElem?_getD, List.getD_eq_getElem?_getD,
    List.getElem?_take, if_pos h]

theorem childIndex_spec (n : BPlusNode) (key : Int)
    (hnk : n.numKeys ≤ n.keys.length) :
    childIndex n key ≤ n.numKeys ∧
    (∀ i, i < childIndex n key → ¬ key < n.keys.getD i 0) ∧
    (childIndex n key < n.numKeys → key < n.keys.getD (childIndex n key) 0) := by
  have hlen : (n.keys.take n.numKeys).length = n.numKeys := by
    rw [List.length_take]
    exact Nat.min_eq_left hnk
  obtain ⟨hs1, hs2, hs3⟩ :=
    takeWhile_length_spec (fun k => decide (k ≤ key)) (n.keys.take n.numKeys)
  have hle : childIndex n key ≤ n.numKeys := by
    unfold childIndex
    exact le_trans hs1 (le_of_eq hlen)
  refine ⟨hle, ?_, ?_⟩
  · intro i hi
    have hi2 : i < n.numKeys := Nat.lt_of_lt_of_le hi hle
    have := hs2 i hi
    rw [getD_take_lt n.keys n.numKeys i hi2] at this
    have hled : n.keys.getD i 0 ≤ key := of_decide_eq_true this
    omega
  · intro hlt
    have hlt2 : (List.takeWhile (fun k => decide (k ≤ key))
        (List.take n.numKeys n.keys)).length
        < (List.take n.numKeys n.keys).length := by
      rw [hlen]
      exact hlt
    have h5 := hs3 hlt2
    rw [getD_take_lt n.keys n.numKeys _
      (show (List.takeWhile (fun k => decide (k ≤ key))
        (List.take n.numKeys n.keys)).length < n.numKeys from hlt)] at h5
    have hled : ¬ n.keys.getD (childIndex n key) 0 ≤ key :=
      of_decide_eq_false h5
    omega

/-- CLAIM C7: one step of `findLeaf(page, key)`: when the page is a leaf it
is returned; when it is internal the function recurses into
`children[childIndex]`, where `childIndex` is the first index `i` with
`key < keys[i]`, or `numKeys` (the last child) when no such index exists —
every index before it has `keys[i] <= key`, so a key equal to a stored key
is routed to the right of it. -/
theorem findLeaf_routing (s : BufferState) (p key : Int) (fuel : Nat)
    (hc : Coherent s) (hclean : CleanOK s)
    (hnk : (pageContent s p).numKeys ≤ (pageContent s p).keys.length) :
    ((pageContent s p).isLeaf = true →
      findLeaf (fuel + 1) s p key = (fetchPage s p, p)) ∧
    ((pageContent s p).isLeaf = false →
      findLeaf (fuel + 1) s p key = findLeaf fuel (fetchPage s p)
        ((pageContent s p).children.getD (childIndex (pageContent s p) key) 0)
        key) ∧
    childIndex (pageContent s p) key ≤ (pageContent s p).numKeys ∧
    (∀ i, i < childIndex (pageContent s p) key →
      ¬ key < (pageContent s p).keys.getD i 0) ∧
    (childIndex (pageContent s p) key < (pageContent s p).numKeys →
      key < (pageContent s p).keys.getD (childIndex (pageContent s p) key) 0) := by
  obtain ⟨hc1, hc2, hc3⟩ := childIndex_spec (pageContent s p) key hnk
  exact ⟨fun hl => findLeaf_leaf_step key fuel hc hclean hl,
    fun hl => findLeaf_internal_step key fuel hc hclean hl, hc1, hc2, hc3⟩

theorem findLeaf_routing_witness :
    findLeaf 2 demoTree.buf 2 30 = findLeaf 1 (fetchPage demoTree.buf 2)
      ((pageContent demoTree.buf 2).children.getD
        (childIndex (pageContent demoTree.buf 2) 30) 0) 30 :=
  (findLeaf_routing demoTree.buf 2 30 1 (by decide) (by decide)
    (by decide)).2.1 (by decide)

/-- CLAIM C3: `splitLeaf(oldPage, key)` on a leaf holding exactly
`MAX_KEYS` keys allocates one new sibling page, forms the sorted sequence
of the old leaf's keys plus the new key, gives its first
`mid = (MAX_KEYS+1)/2` values in ascending order to the old leaf and the
remaining `(MAX_KEYS+1)-mid` values in ascending order to the sibling
(which it makes a leaf), marks both pages dirty, and then calls
`insertIntoParent(oldPage, firstKeyOfNewLeaf, newPage)`. -/
theorem splitLeaf_contract {t : TreeState} {p : Int} (key : Int)
    (hg : GoodBuf t.buf) (hp0 : 0 ≤ p) (hpn : p < t.buf.nextPageID)
    (hklen : (pageContent t.buf p).keys.length = MAX_KEYS) :
    (splitFinal t p key).nextPageID = t.buf.nextPageID + 1 ∧
    List.Sorted (fun a b => a ≤ b) (splitTemp t p key) ∧
    (splitTemp t p key).Perm ((pageContent t.buf p).keys ++ [key]) ∧
    (pageContent (splitFinal t p key) p).numKeys = (MAX_KEYS + 1) / 2 ∧
    (pageContent (splitFinal t p key) p).keys.take ((MAX_KEYS + 1) / 2)
      = (splitTemp t p key).take ((MAX_KEYS + 1) / 2) ∧
    (pageContent (splitFinal t p key) t.buf.nextPageID).isLeaf = true ∧
    (pageContent (splitFinal t p key) t.buf.nextPageID).numKeys
      = (MAX_KEYS + 1) - (MAX_KEYS + 1) / 2 ∧
    (pageContent (splitFinal t p key) t.buf.nextPageID).keys.take
        ((MAX_KEYS + 1) - (MAX_KEYS + 1) / 2)
      = (splitTemp t p key).drop ((MAX_KEYS + 1) / 2) ∧
    frameDirty (splitFinal t p key) p = true ∧
    frameDirty (splitFinal t p key) t.buf.nextPageID = true ∧
    splitLeaf t p key = insertIntoParent
      { buf := splitFinal t p key, rootPage := t.rootPage } p
      ((pageContent (splitFinal t p key) t.buf.nextPageID).keys.getD 0 0)
      t.buf.nextPageID := by
  obtain ⟨hgf, hnpid, htemp, hcp, hcN, hprom, hdp, hdN, hpres⟩ :=
    splitLeaf_exec key hg hp0 hpn hklen
  have htlen : (splitTemp t p key).length = MAX_KEYS + 1 := by
    rw [htemp, sortInts_length, List.length_append, hklen]
    rfl
  have hsorted : List.Sorted (fun a b => a ≤ b) (splitTemp t p key) := by
    rw [htemp]
    exact sortInts_sorted _
  have hperm : (splitTemp t p key).Perm ((pageContent t.buf p).keys ++ [key]) := by
    rw [htemp]
    exact sortInts_perm _
  have htakeOld : (pageContent (splitFinal t p key) p).keys.take
      ((MAX_KEYS + 1) / 2) = (splitTemp t p key).take ((MAX_KEYS + 1) / 2) := by
    rw [hcp]
    show (copyKeys (pageContent t.buf p).keys (splitTemp t p key) 0
      ((MAX_KEYS + 1) / 2)).take ((MAX_KEYS + 1) / 2) = _
    rw [copyKeys_take (pageContent t.buf p).keys (splitTemp t p key) 0
      ((MAX_KEYS + 1) / 2) (by rw [hklen]; decide) (by rw [htlen]; decide)]
    rw [List.drop_zero]
  have htakeNew : (pageContent (splitFinal t p key) t.buf.nextPageID).keys.take
      ((MAX_KEYS + 1) - (MAX_KEYS + 1) / 2)
      = (splitTemp t p key).drop ((MAX_KEYS + 1) / 2) := by
    rw [hcN]
    show (copyKeys zeroNode.keys (splitTemp t p key) ((MAX_KEYS + 1) / 2)
      ((MAX_KEYS + 1) - (MAX_KEYS + 1) / 2)).take
        ((MAX_KEYS + 1) - (MAX_KEYS + 1) / 2) = _
    rw [copyKeys_take zeroNode.keys (splitTemp t p key) ((MAX_KEYS + 1) / 2)
      ((MAX_KEYS + 1) - (MAX_KEYS + 1) / 2) (by decide) (by rw [htlen]; decide)]
    have hdl : ((splitTemp t p key).drop ((MAX_KEYS + 1) / 2)).length
        = (MAX_KEYS + 1) - (MAX_KEYS + 1) / 2 := by
      rw [List.length_drop, htlen]
    exact List.take_of_length_le (le_of_eq hdl)
  have hfirstNew : (pageContent (splitFinal t p key) t.buf.nextPageID).keys.getD 0 0
      = splitPromoted t p key := by
    have h1 : (pageContent (splitFinal t p key) t.buf.nextPageID).keys.getD 0 0
        = ((pageContent (splitFinal t p key) t.buf.nextPageID).keys.take
            ((MAX_KEYS + 1) - (MAX_KEYS + 1) / 2)).getD 0 0 := by
      rw [getD_take_lt _ _ _ (by decide)]
    rw [h1, htakeNew, hprom]
    rw [List.getD_eq_getElem?_getD, List.getD_eq_getElem?_getD,
      List.getElem?_drop, Nat.add_zero]
  refine ⟨hnpid, hsorted, hperm, ?_, htakeOld, ?_, ?_, htakeNew, hdp, hdN, ?_⟩
  · rw [hcp]
  · rw [hcN]
  · rw [hcN]
  · rw [hfirstNew]
    exact splitLeaf_eq t p key

theorem splitLeaf_contract_witness :
    (splitFinal fullLeafTree 0 40).nextPageID
      = fullLeafTree.buf.nextPageID + 1 :=
  (splitLeaf_contract 40 (by decide) (by decide) (by decide) (by decide)).1

theorem insertIntoLeaf_room_exec {t : TreeState} {p : Int} (key : Int)
    (hg : GoodBuf t.buf) (hp0 : 0 ≤ p) (hpn : p < t.buf.nextPageID)
    (hroom : (pageContent t.buf p).numKeys < MAX_KEYS) :
    (insertIntoLeaf t p key).rootPage = t.rootPage ∧
    GoodBuf (insertIntoLeaf t p key).buf ∧
    (insertIntoLeaf t p key).buf.nextPageID = t.buf.nextPageID ∧
    pageContent (insertIntoLeaf t p key).buf p
      = { (pageContent t.buf p) with
          keys := insertShift (pageContent t.buf p).keys key
            (pageContent t.buf p).numKeys,
          numKeys := (pageContent t.buf p).numKeys + 1 } ∧
    (∀ q, q ≠ p → pageContent (insertIntoLeaf t p key).buf q
      = pageContent t.buf q) := by
  have hnode : getPageData (fetchPage t.buf p) p = pageContent t.buf p :=
    getPageData_fetch hg.1 hg.2.1 p
  have hcond : (getPageData (fetchPage t.buf p) p).numKeys < MAX_KEYS := by
    rw [hnode]
    exact hroom
  have heq := insertIntoLeaf_room_eq key hcond
  have hgs1 : GoodBuf (fetchPage t.buf p) := fetchPage_goodBuf ⟨hp0, hpn⟩ hg
  have hres : (ptLookup (fetchPage t.buf p).pageTable p).isSome :=
    fetchPage_resident t.buf p
  rcases Option.isSome_iff_exists.mp hres with ⟨idx, hl⟩
  have hc1 : ∀ q, pageContent (fetchPage t.buf p) q = pageContent t.buf q :=
    (fetchPage_preserves hg.1 hg.2.1 p).2
  have heqbuf : (insertIntoLeaf t p key).buf
      = markDirty (setPageData (fetchPage t.buf p) p
          { (getPageData (fetchPage t.buf p) p) with
            keys := insertShift (getPageData (fetchPage t.buf p) p).keys key
              (getPageData (fetchPage t.buf p) p).numKeys,
            numKeys := (getPageData (fetchPage t.buf p) p).numKeys + 1 }) p := by
    rw [heq]
  have heqroot : (insertIntoLeaf t p key).rootPage = t.rootPage := by
    rw [heq]
  refine ⟨heqroot, ⟨?_, ?_, ?_⟩, ?_, ?_, ?_⟩
  · rw [heqbuf]
    exact markDirty_coherent (setPageData_coherent hgs1.1 p _) p
  · rw [heqbuf]
    exact write_mark_cleanOK _ hgs1.1 hres hgs1.2.1
  · rw [heqbuf]
    exact markDirty_keysBound p (setPageData_keysBound p _
      (fetchPage_keysBound ⟨hp0, hpn⟩ hg.2.2))
  · rw [heqbuf, markDirty_nextPageID, setPageData_nextPageID, fetchPage_nextPageID]
  · rw [heqbuf, markDirty_pageContent, setPageData_pageContent_self hgs1.1 hl,
      hnode]
  · intro q hq
    rw [heqbuf, markDirty_pageContent, setPageData_pageContent_ne hgs1.1 hq,
      hc1 q]

theorem insertIntoParent_ne {t : TreeState} {left : Int} (key right : Int)
    (h : left ≠ t.rootPage) : insertIntoParent t left key right = t := by
  unfold insertIntoParent
  rw [if_neg h]

theorem splitLeaf_nonroot_exec {u : TreeState} {p N : Int} (key : Int)
    (old : BPlusNode)
    (hg : GoodBuf u.buf) (hrp : p ≠ u.rootPage) (hN : u.buf.nextPageID = N)
    (hold : pageContent u.buf p = old)
    (hp0 : 0 ≤ p) (hpn : p < N) (hklen : old.keys.length = MAX_KEYS) :
    ∃ s4 : BufferState,
      splitLeaf u p key = { buf := s4, rootPage := u.rootPage } ∧
      GoodBuf s4 ∧ s4.nextPageID = N + 1 ∧
      (∃ temp : List Int,
        temp = sortInts (old.keys ++ [key]) ∧
        pageContent s4 p = { old with
          numKeys := (MAX_KEYS + 1) / 2,
          keys := copyKeys old.keys temp 0 ((MAX_KEYS + 1) / 2) } ∧
        pageContent s4 N = { zeroNode with
          isLeaf := true,
          numKeys := (MAX_KEYS + 1) - (MAX_KEYS + 1) / 2,
          keys := copyKeys zeroNode.keys temp ((MAX_KEYS + 1) / 2)
            ((MAX_KEYS + 1) - (MAX_KEYS + 1) / 2) }) ∧
      ∀ q, q ≠ p → q ≠ N → pageContent s4 q = pageContent u.buf q := by
  subst hN
  subst hold
  obtain ⟨hgf, hnpid, htemp, hcp, hcN, hprom, hdp, hdN, hpres⟩ :=
    splitLeaf_exec key hg hp0 hpn hklen
  refine ⟨splitFinal u p key, ?_, hgf, hnpid, ⟨splitTemp u p key, htemp, hcp, hcN⟩,
    hpres⟩
  rw [splitLeaf_eq u p key]
  exact insertIntoParent_ne _ _ hrp

theorem insertIntoParent_root_exec2 {B : BufferState} (r key right : Int)
    (hg : GoodBuf B) :
    ∃ s2 : BufferState,
      insertIntoParent { buf := B, rootPage := r } r key right
        = { buf := s2, rootPage := B.nextPageID } ∧
      GoodBuf s2 ∧ s2.nextPageID = B.nextPageID + 1 ∧
      pageContent s2 B.nextPageID = { zeroNode with
        isLeaf := false, keys := zeroNode.keys.set 0 key,
        children := (zeroNode.children.set 0 r).set 1 right,
        numKeys := 1 } ∧
      (∀ q, q ≠ B.nextPageID → pageContent s2 q = pageContent B q) := by
  have hg' : GoodBuf ({ buf := B, rootPage := r } : TreeState).buf := hg
  obtain ⟨s2, hipeq, hg4, hn4, hcR, hpres4⟩ :=
    @insertIntoParent_root_exec { buf := B, rootPage := r } key right hg'
  have e1 : ({ buf := B, rootPage := r } : TreeState).rootPage = r := rfl
  have e2 : ({ buf := B, rootPage := r } : TreeState).buf.nextPageID
      = B.nextPageID := rfl
  have e4 : ({ buf := B, rootPage := r } : TreeState).buf = B := rfl
  rw [e1, e2] at hipeq
  rw [e2] at hn4
  rw [e1, e2] at hcR
  rw [e2, e4] at hpres4
  exact ⟨s2, hipeq, hg4, hn4, hcR, hpres4⟩

theorem splitLeaf_root_exec {u : TreeState} {p N : Int} (key : Int)
    (old : BPlusNode)
    (hg : GoodBuf u.buf) (hrp : u.rootPage = p) (hN : u.buf.nextPageID = N)
    (hold : pageContent u.buf p = old)
    (hp0 : 0 ≤ p) (hpn : p < N) (hklen : old.keys.length = MAX_KEYS) :
    ∃ s4 : BufferState,
      splitLeaf u p key = { buf := s4, rootPage := N + 1 } ∧
      GoodBuf s4 ∧ s4.nextPageID = N + 2 ∧
      (∃ temp : List Int,
        temp = sortInts (old.keys ++ [key]) ∧
        pageContent s4 (N + 1) = { zeroNode with
          isLeaf := false,
          keys := zeroNode.keys.set 0 (temp.getD ((MAX_KEYS + 1) / 2) 0),
          children := (zeroNode.children.set 0 p).set 1 N,
          numKeys := 1 } ∧
        pageContent s4 p = { old with
          numKeys := (MAX_KEYS + 1) / 2,
          keys := copyKeys old.keys temp 0 ((MAX_KEYS + 1) / 2) } ∧
        pageContent s4 N = { zeroNode with
          isLeaf := true,
          numKeys := (MAX_KEYS + 1) - (MAX_KEYS + 1) / 2,
          keys := copyKeys zeroNode.keys temp ((MAX_KEYS + 1) / 2)
            ((MAX_KEYS + 1) - (MAX_KEYS + 1) / 2) }) ∧
      ∀ q, q ≠ p → q ≠ N → q ≠ N + 1 →
        pageContent s4 q = pageContent u.buf q := by
  subst hrp
  subst hN
  subst hold
  obtain ⟨hgf, hnpid, htemp, hcp, hcN, hprom, hdp, hdN, hpres⟩ :=
    splitLeaf_exec key hg hp0 hpn hklen
  obtain ⟨s2, hipeq, hg4, hn4, hcR, hpres4⟩ :=
    insertIntoParent_root_exec2 u.rootPage (splitPromoted u u.rootPage key)
      u.buf.nextPageID hgf
  rw [hnpid] at hipeq hn4 hcR hpres4
  refine ⟨s2, ?_, hg4, by omega,
    ⟨splitTemp u u.rootPage key, htemp, ?_, ?_, ?_⟩, ?_⟩
  · rw [splitLeaf_eq u u.rootPage key]
    exact hipeq
  · rw [← hprom]
    exact hcR
  · have h1 : pageContent s2 u.rootPage
        = pageContent (splitFinal u u.rootPage key) u.rootPage :=
      hpres4 u.rootPage (by omega)
    rw [h1]
    exact hcp
  · have h1 : pageContent s2 u.buf.nextPageID
        = pageContent (splitFinal u u.rootPage key) u.buf.nextPageID :=
      hpres4 u.buf.nextPageID (by omega)
    rw [h1]
    exact hcN
  · intro q hq1 hq2 hq3
    have h1 : pageContent s2 q
        = pageContent (splitFinal u u.rootPage key) q := hpres4 q hq3
    rw [h1]
    exact hpres q hq1 hq2

theorem insertIntoLeaf_room_exec2 {B : BufferState} (r p key : Int)
    (hg : GoodBuf B) (hp0 : 0 ≤ p) (hpn : p < B.nextPageID)
    (hroom : (pageContent B p).numKeys < MAX_KEYS) :
    (insertIntoLeaf { buf := B, rootPage := r } p key).rootPage = r ∧
    GoodBuf (insertIntoLeaf { buf := B, rootPage := r } p key).buf ∧
    (insertIntoLeaf { buf := B, rootPage := r } p key).buf.nextPageID
      = B.nextPageID ∧
    pageContent (insertIntoLeaf { buf := B, rootPage := r } p key).buf p
      = { (pageContent B p) with
          keys := insertShift (pageContent B p).keys key
            (pageContent B p).numKeys,
          numKeys := (pageContent B p).numKeys + 1 } ∧
    (∀ q, q ≠ p →
      pageContent (insertIntoLeaf { buf := B, rootPage := r } p key).buf q
        = pageContent B q) := by
  have hg' : GoodBuf ({ buf := B, rootPage := r } : TreeState).buf := hg
  have hpn' : p < ({ buf := B, rootPage := r } : TreeState).buf.nextPageID := hpn
  have hroom' : (pageContent ({ buf := B, rootPage := r } : TreeState).buf
      p).numKeys < MAX_KEYS := hroom
  obtain ⟨h1, h2, h3, h4, h5⟩ :=
    @insertIntoLeaf_room_exec { buf := B, rootPage := r } p key hg' hp0 hpn'
      hroom'
  have e4 : ({ buf := B, rootPage := r } : TreeState).buf = B := rfl
  have er : ({ buf := B, rootPage := r } : TreeState).rootPage = r := rfl
  rw [er] at h1
  rw [e4] at h3 h4 h5
  exact ⟨h1, h2, h3, h4, h5⟩

theorem insertIntoLeaf_full_eq2 {B : BufferState} (r p key : Int)
    (hg : GoodBuf B)
    (hfull : ¬ (pageContent B p).numKeys < MAX_KEYS) :
    insertIntoLeaf { buf := B, rootPage := r } p key
      = splitLeaf { buf := fetchPage B p, rootPage := r } p key := by
  have hnode : getPageData (fetchPage B p) p = pageContent B p :=
    getPageData_fetch hg.1 hg.2.1 p
  have hcond : ¬ (getPageData
      (fetchPage ({ buf := B, rootPage := r } : TreeState).buf p) p).numKeys
      < MAX_KEYS := by
    show ¬ (getPageData (fetchPage B p) p).numKeys < MAX_KEYS
    rw [hnode]
    exact hfull
  exact @insertIntoLeaf_full_eq { buf := B, rootPage := r } p key hcond

theorem insert_shapeA {t : TreeState} (key : Int) (hg : GoodBuf t.buf)
    (hO : OrphansOK t) (hA : ShapeA t) : TreeInv (insert t key) := by
  obtain ⟨hroot, hnp, hlf, hpp, hnl⟩ := hA
  have hleaf : (pageContent t.buf t.rootPage).isLeaf = true := by
    rw [hroot]
    exact hlf.1
  have hfl : findLeaf (t.buf.nextPageID.toNat + 1) t.buf t.rootPage key
      = (fetchPage t.buf t.rootPage, t.rootPage) :=
    findLeaf_leaf_step key t.buf.nextPageID.toNat hg.1 hg.2.1 hleaf
  have hins : insert t key
      = insertIntoLeaf { t with buf := fetchPage t.buf t.rootPage }
          t.rootPage key := by
    show insertIntoLeaf
        { t with
          buf := (findLeaf (t.buf.nextPageID.toNat + 1) t.buf t.rootPage
            key).1 }
        (findLeaf (t.buf.nextPageID.toNat + 1) t.buf t.rootPage key).2 key = _
    rw [hfl]
  have hins2 : insert t key
      = insertIntoLeaf { buf := fetchPage t.buf 0, rootPage := 0 } 0 key := by
    rw [hins, hroot]
  have hgF : GoodBuf (fetchPage t.buf 0) :=
    fetchPage_goodBuf ⟨by omega, by omega⟩ hg
  have hPF : ∀ q, pageContent (fetchPage t.buf 0) q = pageContent t.buf q :=
    (fetchPage_preserves hg.1 hg.2.1 0).2
  have hnF : (fetchPage t.buf 0).nextPageID = 1 := by
    rw [fetchPage_nextPageID]
    exact hnp
  by_cases hroom : (pageContent t.buf 0).numKeys < MAX_KEYS
  · -- spare capacity: shift-insert into the root leaf
    have hroomF : (pageContent (fetchPage t.buf 0) 0).numKeys < MAX_KEYS := by
      rw [hPF 0]
      exact hroom
    obtain ⟨h1, h2, h3, h4, h5⟩ :=
      insertIntoLeaf_room_exec2 0 0 key hgF (by omega) (by omega) hroomF
    have hn' : (insertIntoLeaf { buf := fetchPage t.buf 0, rootPage := 0 }
        0 key).buf.nextPageID = 1 := by
      rw [h3]
      exact hnF
    rw [hins2]
    refine ⟨h2, ?_, Or.inl ⟨h1, hn', ?_, ?_, ?_⟩⟩
    · intro k hk hkr
      rw [hn'] at hk
      rw [h1] at hkr
      exact absurd (show (k : Int) = 0 by omega) hkr
    · rw [h4, hPF 0]
      exact leafOK_insertShift key hlf hroom
    · rw [h4, hPF 0]
      exact hpp
    · rw [h4, hPF 0]
      exact hnl
  · -- full root leaf: split and grow a new root
    have hfullF : ¬ (pageContent (fetchPage t.buf 0) 0).numKeys < MAX_KEYS := by
      rw [hPF 0]
      exact hroom
    have heqfull := insertIntoLeaf_full_eq2 0 0 key hgF hfullF
    have hgF2 : GoodBuf (fetchPage (fetchPage t.buf 0) 0) :=
      fetchPage_goodBuf ⟨by omega, by omega⟩ hgF
    have hPF2 : ∀ q, pageContent (fetchPage (fetchPage t.buf 0) 0) q
        = pageContent (fetchPage t.buf 0) q :=
      (fetchPage_preserves hgF.1 hgF.2.1 0).2
    have hgu : GoodBuf ({ buf := fetchPage (fetchPage t.buf 0) 0, rootPage := 0 } : TreeState).buf := hgF2
    have hru : ({ buf := fetchPage (fetchPage t.buf 0) 0, rootPage := 0 } : TreeState).rootPage = 0 := rfl
    have hNu : ({ buf := fetchPage (fetchPage t.buf 0) 0, rootPage := 0 } : TreeState).buf.nextPageID = 1 := by
      show (fetchPage (fetchPage t.buf 0) 0).nextPageID = 1
      rw [fetchPage_nextPageID]
      exact hnF
    have holdu : pageContent ({ buf := fetchPage (fetchPage t.buf 0) 0, rootPage := 0 } : TreeState).buf 0 = pageContent t.buf 0 := by
      show pageContent (fetchPage (fetchPage t.buf 0) 0) 0 = pageContent t.buf 0
      rw [hPF2 0, hPF 0]
    obtain ⟨s4, heq4, hg4, hn4, ⟨temp, htemp, hcR, hcp, hcN⟩, hpres⟩ :=
      @splitLeaf_root_exec
        { buf := fetchPage (fetchPage t.buf 0) 0, rootPage := 0 } 0 1 key
        (pageContent t.buf 0) hgu hru hNu holdu (by omega) (by omega)
        hlf.2.2.1
    have heq4' : splitLeaf { buf := fetchPage (fetchPage t.buf 0) 0, rootPage := 0 } 0 key = { buf := s4, rootPage := 2 } := heq4
    have hn4' : s4.nextPageID = 3 := hn4
    have hcR' : pageContent s4 2 = { zeroNode with
        isLeaf := false,
        keys := zeroNode.keys.set 0 (temp.getD ((MAX_KEYS + 1) / 2) 0),
        children := (zeroNode.children.set 0 0).set 1 1,
        numKeys := 1 } := hcR
    have hfinal : insert t key = { buf := s4, rootPage := 2 } := by
      rw [hins2, heqfull, heq4']
    have hsorted : List.Sorted (fun a b => a ≤ b) temp := by
      rw [htemp]
      exact sortInts_sorted _
    have htlen4 : temp.length = MAX_KEYS + 1 := by
      rw [htemp, sortInts_length, List.length_append, hlf.2.2.1]
      rfl
    have hlf0 : leafOK (pageContent s4 0) := by
      rw [hcp]
      exact leafOK_splitOld hlf hsorted htlen4
    have hlf1 : leafOK (pageContent s4 1) := by
      rw [hcN]
      exact leafOK_splitNew hsorted htlen4
    have hpp0 : (pageContent s4 0).parentPage = -1 := by
      rw [hcp]
      exact hpp
    have hnl0 : (pageContent s4 0).nextLeaf = 0 := by
      rw [hcp]
      exact hnl
    have hpp1 : (pageContent s4 1).parentPage = 0 := by
      rw [hcN]
      rfl
    have hnl1 : (pageContent s4 1).nextLeaf = 0 := by
      rw [hcN]
      rfl
    have hroot2 : rootOK (pageContent s4 2) := by
      rw [hcR']
      refine ⟨rfl, rfl, ?_, ?_, ?_, ?_, rfl, rfl⟩
      · show (zeroNode.keys.set 0 (temp.getD ((MAX_KEYS + 1) / 2) 0)).length
          = MAX_KEYS
        rw [List.length_set]
        rfl
      · show ((zeroNode.children.set 0 0).set 1 1).length = MAX_KEYS + 1
        rw [List.length_set, List.length_set]
        rfl
      · show ((zeroNode.children.set 0 0).set 1 1).getD 0 0 = 0
        decide
      · show ((zeroNode.children.set 0 0).set 1 1).getD 1 0 = 1
        decide
    rw [hfinal]
    refine ⟨hg4, ?_, Or.inr ⟨rfl, ?_, hroot2, hlf0, hpp0, hnl0, hlf1, hpp1,
      hnl1⟩⟩
    · intro k hk hkr
      have hk3 : k < 3 := by
        have hkk : k < (3 : Int).toNat := by
          rw [← hn4']
          exact hk
        omega
      have hkr2 : (k : Int) ≠ 2 := hkr
      have hk01 : k = 0 ∨ k = 1 := by omega
      cases hk01 with
      | inl h0 =>
        subst h0
        exact ⟨hlf0, fun hne => absurd rfl hne⟩
      | inr h1 =>
        subst h1
        exact ⟨hlf1, fun _ => ⟨hpp1, hnl1⟩⟩
    · show (3 : Int) ≤ s4.nextPageID
      omega

theorem insert_shapeB {t : TreeState} (key : Int) (hg : GoodBuf t.buf)
    (hO : OrphansOK t) (hB : ShapeB t) : TreeInv (insert t key) := by
  obtain ⟨hroot, hnp, hrOK, hlf0, hpp0, hnl0, hlf1, hpp1, hnl1⟩ := hB
  have hileaf : (pageContent t.buf t.rootPage).isLeaf = false := by
    rw [hroot]
    exact hrOK.1
  have hstep1 := findLeaf_internal_step key t.buf.nextPageID.toNat hg.1 hg.2.1
    hileaf
  rw [hroot] at hstep1
  have hci := childIndex_root key hrOK
  obtain ⟨L, hL01, hLdef⟩ : ∃ L : Int, (L = 0 ∨ L = 1) ∧
      (pageContent t.buf 2).children.getD
        (childIndex (pageContent t.buf 2) key) 0 = L := by
    rw [hci]
    by_cases hkey : (pageContent t.buf 2).keys.getD 0 0 ≤ key
    · rw [if_pos hkey]
      exact ⟨1, Or.inr rfl, hrOK.2.2.2.2.2.1⟩
    · rw [if_neg hkey]
      exact ⟨0, Or.inl rfl, hrOK.2.2.2.2.1⟩
  rw [hLdef] at hstep1
  obtain ⟨m, hm⟩ : ∃ m, t.buf.nextPageID.toNat = m + 1 :=
    ⟨t.buf.nextPageID.toNat - 1, by omega⟩
  have hgF2 : GoodBuf (fetchPage t.buf 2) :=
    fetchPage_goodBuf ⟨by omega, by omega⟩ hg
  have hPF2 : ∀ q, pageContent (fetchPage t.buf 2) q = pageContent t.buf q :=
    (fetchPage_preserves hg.1 hg.2.1 2).2
  have hlfL : leafOK (pageContent t.buf L) := by
    rcases hL01 with h | h
    · subst h
      exact hlf0
    · subst h
      exact hlf1
  have hL0 : (0 : Int) ≤ L := by
    rcases hL01 with h | h <;> subst h <;> decide
  have hL1 : L ≤ 1 := by
    rcases hL01 with h | h <;> subst h <;> decide
  have hleafL : (pageContent (fetchPage t.buf 2) L).isLeaf = true := by
    rw [hPF2 L]
    exact hlfL.1
  have hstep2 : findLeaf (m + 1) (fetchPage t.buf 2) L key
      = (fetchPage (fetchPage t.buf 2) L, L) :=
    findLeaf_leaf_step key m hgF2.1 hgF2.2.1 hleafL
  have hins : insert t key = insertIntoLeaf
      { buf := fetchPage (fetchPage t.buf 2) L, rootPage := 2 } L key := by
    show insertIntoLeaf
        { t with
          buf := (findLeaf (t.buf.nextPageID.toNat + 1) t.buf t.rootPage
            key).1 }
        (findLeaf (t.buf.nextPageID.toNat + 1) t.buf t.rootPage key).2 key = _
    rw [hroot, hstep1, hm, hstep2]
  have hgBL : GoodBuf (fetchPage (fetchPage t.buf 2) L) := by
    refine fetchPage_goodBuf ⟨hL0, ?_⟩ hgF2
    rw [fetchPage_nextPageID]
    omega
  have hPBL : ∀ q, pageContent (fetchPage (fetchPage t.buf 2) L) q
      = pageContent t.buf q := by
    intro q
    rw [(fetchPage_preserves hgF2.1 hgF2.2.1 L).2 q, hPF2 q]
  have hnBL : (fetchPage (fetchPage t.buf 2) L).nextPageID
      = t.buf.nextPageID := by
    rw [fetchPage_nextPageID, fetchPage_nextPageID]
  rcases hL01 with hLe | hLe
  · -- the key descends into leaf page 0
    subst hLe
    by_cases hroom : (pageContent t.buf 0).numKeys < MAX_KEYS
    · obtain ⟨h1, h2, h3, h4, h5⟩ :=
        insertIntoLeaf_room_exec2 2 0 key hgBL (by omega) (by omega)
          (by rw [hPBL 0]; exact hroom)
      rw [hins]
      refine ⟨h2, ?_, Or.inr ⟨h1, ?_, ?_, ?_, ?_, ?_, ?_, ?_, ?_⟩⟩
      · intro k hk hkr
        have hk2 : k < (fetchPage (fetchPage t.buf 2) 0).nextPageID.toNat := by
          rw [← h3]
          exact hk
        rw [hnBL] at hk2
        have hkr2 : (k : Int) ≠ 2 := by
          rw [← h1]
          exact hkr
        by_cases hk0 : (k : Int) = 0
        · rw [hk0, h4, hPBL 0]
          exact ⟨leafOK_insertShift key hlf0 hroom, fun hne => absurd rfl hne⟩
        · rw [h5 (k : Int) hk0, hPBL (k : Int)]
          exact hO k hk2 (by rw [hroot]; exact hkr2)
      · rw [h3, hnBL]
        exact hnp
      · rw [h5 2 (by decide), hPBL 2]
        exact hrOK
      · rw [h4, hPBL 0]
        exact leafOK_insertShift key hlf0 hroom
      · rw [h4, hPBL 0]
        exact hpp0
      · rw [h4, hPBL 0]
        exact hnl0
      · rw [h5 1 (by decide), hPBL 1]
        exact hlf1
      · rw [h5 1 (by decide), hPBL 1]
        exact hpp1
      · rw [h5 1 (by decide), hPBL 1]
        exact hnl1
    · have heqfull := insertIntoLeaf_full_eq2 2 0 key hgBL
        (by rw [hPBL 0]; exact hroom)
      have hgBL2 : GoodBuf (fetchPage (fetchPage (fetchPage t.buf 2) 0) 0) := by
        refine fetchPage_goodBuf ⟨by omega, ?_⟩ hgBL
        rw [hnBL]
        omega
      have hPBL2 : ∀ q,
          pageContent (fetchPage (fetchPage (fetchPage t.buf 2) 0) 0) q
            = pageContent (fetchPage (fetchPage t.buf 2) 0) q :=
        (fetchPage_preserves hgBL.1 hgBL.2.1 0).2
      have hgu : GoodBuf ({ buf := fetchPage (fetchPage (fetchPage t.buf 2) 0) 0, rootPage := 2 } : TreeState).buf := hgBL2
      have hNu : ({ buf := fetchPage (fetchPage (fetchPage t.buf 2) 0) 0, rootPage := 2 } : TreeState).buf.nextPageID = t.buf.nextPageID := by
        show (fetchPage (fetchPage (fetchPage t.buf 2) 0) 0).nextPageID = _
        rw [fetchPage_nextPageID]
        exact hnBL
      have holdu : pageContent ({ buf := fetchPage (fetchPage (fetchPage t.buf 2) 0) 0, rootPage := 2 } : TreeState).buf 0 = pageContent t.buf 0 := by
        show pageContent (fetchPage (fetchPage (fetchPage t.buf 2) 0) 0) 0 = _
        rw [hPBL2 0, hPBL 0]
      obtain ⟨s4, heq4, hg4, hn4, ⟨temp, htemp, hcp, hcN⟩, hpres⟩ :=
        @splitLeaf_nonroot_exec
          { buf := fetchPage (fetchPage (fetchPage t.buf 2) 0) 0,
            rootPage := 2 } 0 t.buf.nextPageID key (pageContent t.buf 0)
          hgu (by show (0 : Int) ≠ (2 : Int); decide) hNu holdu (by omega)
          (by omega) hlf0.2.2.1
      have heq4' : splitLeaf { buf := fetchPage (fetchPage (fetchPage t.buf 2) 0) 0, rootPage := 2 } 0 key = { buf := s4, rootPage := 2 } := heq4
      have hfinal : insert t key = { buf := s4, rootPage := 2 } := by
        rw [hins, heqfull, heq4']
      have hsorted : List.Sorted (fun a b => a ≤ b) temp := by
        rw [htemp]
        exact sortInts_sorted _
      have htlen4 : temp.length = MAX_KEYS + 1 := by
        rw [htemp, sortInts_length, List.length_append, hlf0.2.2.1]
        rfl
      have hc2 : pageContent s4 2 = pageContent t.buf 2 := by
        have h3 : pageContent s4 2
            = pageContent (fetchPage (fetchPage (fetchPage t.buf 2) 0) 0) 2 :=
          hpres 2 (by decide) (by omega)
        rw [h3, hPBL2 2, hPBL 2]
      have hc1 : pageContent s4 1 = pageContent t.buf 1 := by
        have h3 : pageContent s4 1
            = pageContent (fetchPage (fetchPage (fetchPage t.buf 2) 0) 0) 1 :=
          hpres 1 (by decide) (by omega)
        rw [h3, hPBL2 1, hPBL 1]
      have hlfnew0 : leafOK (pageContent s4 0) := by
        rw [hcp]
        exact leafOK_splitOld hlf0 hsorted htlen4
      have hppn0 : (pageContent s4 0).parentPage = -1 := by
        rw [hcp]
        exact hpp0
      have hnln0 : (pageContent s4 0).nextLeaf = 0 := by
        rw [hcp]
        exact hnl0
      have hlfN : leafOK (pageContent s4 t.buf.nextPageID) := by
        rw [hcN]
        exact leafOK_splitNew hsorted htlen4
      have hppN : (pageContent s4 t.buf.nextPageID).parentPage = 0 := by
        rw [hcN]
        rfl
      have hnlN : (pageContent s4 t.buf.nextPageID).nextLeaf = 0 := by
        rw [hcN]
        rfl
      rw [hfinal]
      refine ⟨hg4, ?_, Or.inr ⟨rfl, ?_, ?_, ?_, ?_, ?_, ?_, ?_, ?_⟩⟩
      · intro k hk hkr
        have hk2 : k < s4.nextPageID.toNat := hk
        rw [hn4] at hk2
        have hkr2 : (k : Int) ≠ 2 := hkr
        show leafOK (pageContent s4 (k : Int)) ∧ ((k : Int) ≠ 0 →
          (pageContent s4 (k : Int)).parentPage = 0 ∧
          (pageContent s4 (k : Int)).nextLeaf = 0)
        by_cases hk0 : (k : Int) = 0
        · rw [hk0]
          exact ⟨hlfnew0, fun hne => absurd rfl hne⟩
        · by_cases hkN : (k : Int) = t.buf.nextPageID
          · rw [hkN]
            exact ⟨hlfN, fun _ => ⟨hppN, hnlN⟩⟩
          · have h2 : pageContent s4 (k : Int) = pageContent t.buf (k : Int) := by
              have h3 : pageContent s4 (k : Int)
                  = pageContent (fetchPage (fetchPage (fetchPage t.buf 2) 0) 0)
                    (k : Int) := hpres (k : Int) hk0 hkN
              rw [h3, hPBL2 (k : Int), hPBL (k : Int)]
            rw [h2]
            exact hO k (by omega) (by rw [hroot]; exact hkr2)
      · show (3 : Int) ≤ s4.nextPageID
        omega
      · show rootOK (pageContent s4 2)
        rw [hc2]
        exact hrOK
      · show leafOK (pageContent s4 0)
        exact hlfnew0
      · show (pageContent s4 0).parentPage = -1
        exact hppn0
      · show (pageContent s4 0).nextLeaf = 0
        exact hnln0
      · show leafOK (pageContent s4 1)
        rw [hc1]
        exact hlf1
      · show (pageContent s4 1).parentPage = 0
        rw [hc1]
        exact hpp1
      · show (pageContent s4 1).nextLeaf = 0
        rw [hc1]
        exact hnl1
  · -- the key descends into leaf page 1
    subst hLe
    by_cases hroom : (pageContent t.buf 1).numKeys < MAX_KEYS
    · obtain ⟨h1, h2, h3, h4, h5⟩ :=
        insertIntoLeaf_room_exec2 2 1 key hgBL (by omega) (by omega)
          (by rw [hPBL 1]; exact hroom)
      rw [hins]
      refine ⟨h2, ?_, Or.inr ⟨h1, ?_, ?_, ?_, ?_, ?_, ?_, ?_, ?_⟩⟩
      · intro k hk hkr
        have hk2 : k < (fetchPage (fetchPage t.buf 2) 1).nextPageID.toNat := by
          rw [← h3]
          exact hk
        rw [hnBL] at hk2
        have hkr2 : (k : Int) ≠ 2 := by
          rw [← h1]
          exact hkr
        by_cases hk1 : (k : Int) = 1
        · rw [hk1, h4, hPBL 1]
          exact ⟨leafOK_insertShift key hlf1 hroom, fun _ => ⟨hpp1, hnl1⟩⟩
        · rw [h5 (k : Int) hk1, hPBL (k : Int)]
          exact hO k hk2 (by rw [hroot]; exact hkr2)
      · rw [h3, hnBL]
        exact hnp
      · rw [h5 2 (by decide), hPBL 2]
        exact hrOK
      · rw [h5 0 (by decide), hPBL 0]
        exact hlf0
      · rw [h5 0 (by decide), hPBL 0]
        exact hpp0
      · rw [h5 0 (by decide), hPBL 0]
        exact hnl0
      · rw [h4, hPBL 1]
        exact leafOK_insertShift key hlf1 hroom
      · rw [h4, hPBL 1]
        exact hpp1
      · rw [h4, hPBL 1]
        exact hnl1
    · have heqfull := insertIntoLeaf_full_eq2 2 1 key hgBL
        (by rw [hPBL 1]; exact hroom)
      have hgBL2 : GoodBuf (fetchPage (fetchPage (fetchPage t.buf 2) 1) 1) := by
        refine fetchPage_goodBuf ⟨by omega, ?_⟩ hgBL
        rw [hnBL]
        omega
      have hPBL2 : ∀ q,
          pageContent (fetchPage (fetchPage (fetchPage t.buf 2) 1) 1) q
            = pageContent (fetchPage (fetchPage t.buf 2) 1) q :=
        (fetchPage_preserves hgBL.1 hgBL.2.1 1).2
      have hgu : GoodBuf ({ buf := fetchPage (fetchPage (fetchPage t.buf 2) 1) 1, rootPage := 2 } : TreeState).buf := hgBL2
      have hNu : ({ buf := fetchPage (fetchPage (fetchPage t.buf 2) 1) 1, rootPage := 2 } : TreeState).buf.nextPageID = t.buf.nextPageID := by
        show (fetchPage (fetchPage (fetchPage t.buf 2) 1) 1).nextPageID = _
        rw [fetchPage_nextPageID]
        exact hnBL
      have holdu : pageContent ({ buf := fetchPage (fetchPage (fetchPage t.buf 2) 1) 1, rootPage := 2 } : TreeState).buf 1 = pageContent t.buf 1 := by
        show pageContent (fetchPage (fetchPage (fetchPage t.buf 2) 1) 1) 1 = _
        rw [hPBL2 1, hPBL 1]
      obtain ⟨s4, heq4, hg4, hn4, ⟨temp, htemp, hcp, hcN⟩, hpres⟩ :=
        @splitLeaf_nonroot_exec
          { buf := fetchPage (fetchPage (fetchPage t.buf 2) 1) 1,
            rootPage := 2 } 1 t.buf.nextPageID key (pageContent t.buf 1)
          hgu (by show (1 : Int) ≠ (2 : Int); decide) hNu holdu (by omega)
          (by omega) hlf1.2.2.1
      have heq4' : splitLeaf { buf := fetchPage (fetchPage (fetchPage t.buf 2) 1) 1, rootPage := 2 } 1 key = { buf := s4, rootPage := 2 } := heq4
      have hfinal : insert t key = { buf := s4, rootPage := 2 } := by
        rw [hins, heqfull, heq4']
      have hsorted : List.Sorted (fun a b => a ≤ b) temp := by
        rw [htemp]
        exact sortInts_sorted _
      have htlen4 : temp.length = MAX_KEYS + 1 := by
        rw [htemp, sortInts_length, List.length_append, hlf1.2.2.1]
        rfl
      have hc2 : pageContent s4 2 = pageContent t.buf 2 := by
        have h3 : pageContent s4 2
            = pageContent (fetchPage (fetchPage (fetchPage t.buf 2) 1) 1) 2 :=
          hpres 2 (by decide) (by omega)
        rw [h3, hPBL2 2, hPBL 2]
      have hc0 : pageContent s4 0 = pageContent t.buf 0 := by
        have h3 : pageContent s4 0
            = pageContent (fetchPage (fetchPage (fetchPage t.buf 2) 1) 1) 0 :=
          hpres 0 (by decide) (by omega)
        rw [h3, hPBL2 0, hPBL 0]
      have hlfnew1 : leafOK (pageContent s4 1) := by
        rw [hcp]
        exact leafOK_splitOld hlf1 hsorted htlen4
      have hppn1 : (pageContent s4 1).parentPage = 0 := by
        rw [hcp]
        exact hpp1
      have hnln1 : (pageContent s4 1).nextLeaf = 0 := by
        rw [hcp]
        exact hnl1
      have hlfN : leafOK (pageContent s4 t.buf.nextPageID) := by
        rw [hcN]
        exact leafOK_splitNew hsorted htlen4
      have hppN : (pageContent s4 t.buf.nextPageID).parentPage = 0 := by
        rw [hcN]
        rfl
      have hnlN : (pageContent s4 t.buf.nextPageID).nextLeaf = 0 := by
        rw [hcN]
        rfl
      rw [hfinal]
      refine ⟨hg4, ?_, Or.inr ⟨rfl, ?_, ?_, ?_, ?_, ?_, ?_, ?_, ?_⟩⟩
      · intro k hk hkr
        have hk2 : k < s4.nextPageID.toNat := hk
        rw [hn4] at hk2
        have hkr2 : (k : Int) ≠ 2 := hkr
        show leafOK (pageContent s4 (k : Int)) ∧ ((k : Int) ≠ 0 →
          (pageContent s4 (k : Int)).parentPage = 0 ∧
          (pageContent s4 (k : Int)).nextLeaf = 0)
        by_cases hk1 : (k : Int) = 1
        · rw [hk1]
          exact ⟨hlfnew1, fun _ => ⟨hppn1, hnln1⟩⟩
        · by_cases hkN : (k : Int) = t.buf.nextPageID
          · rw [hkN]
            exact ⟨hlfN, fun _ => ⟨hppN, hnlN⟩⟩
          · have h2 : pageContent s4 (k : Int) = pageContent t.buf (k : Int) := by
              have h3 : pageContent s4 (k : Int)
                  = pageContent (fetchPage (fetchPage (fetchPage t.buf 2) 1) 1)
                    (k : Int) := hpres (k : Int) hk1 hkN
              rw [h3, hPBL2 (k : Int), hPBL (k : Int)]
            rw [h2]
            exact hO k (by omega) (by rw [hroot]; exact hkr2)
      · show (3 : Int) ≤ s4.nextPageID
        omega
      · show rootOK (pageContent s4 2)
        rw [hc2]
        exact hrOK
      · show leafOK (pageContent s4 0)
        rw [hc0]
        exact hlf0
      · show (pageContent s4 0).parentPage = -1
        rw [hc0]
        exact hpp0
      · show (pageContent s4 0).nextLeaf = 0
        rw [hc0]
        exact hnl0
      · show leafOK (pageContent s4 1)
        exact hlfnew1
      · show (pageContent s4 1).parentPage = 0
        exact hppn1
      · show (pageContent s4 1).nextLeaf = 0
        exact hnln1

theorem insert_treeInv {t : TreeState} (key : Int) (h : TreeInv t) :
    TreeInv (insert t key) := by
  obtain ⟨hg, hO, hshape⟩ := h
  cases hshape with
  | inl hA => exact insert_shapeA key hg hO hA
  | inr hB => exact insert_shapeB key hg hO hB

theorem insertAll_treeInv_aux (ks : List Int) :
    ∀ t : TreeState, TreeInv t → TreeInv (insertAll t ks) := by
  induction ks with
  | nil => exact fun t h => h
  | cons k ks ih => exact fun t h => ih (insert t k) (insert_treeInv k h)

theorem newTree_treeInv : TreeInv newTree := by decide

theorem insertAll_treeInv (ks : List Int) : TreeInv (insertAll newTree ks) :=
  insertAll_treeInv_aux ks newTree newTree_treeInv

/-- CLAIM C8: starting from a fresh tree, after any sequence of inserts the
tree reachable from the root has exactly one of two shapes: a single leaf
root (page 0, the initial shape), or an internal root (page 2, created by
the first-ever split) over exactly the two leaf pages 0 and 1.  No insert
sequence ever produces a tree deeper than two levels. -/
theorem tree_two_shapes (ks : List Int) :
    ShapeA (insertAll newTree ks) ∨ ShapeB (insertAll newTree ks) :=
  (insertAll_treeInv ks).2.2

/-- Witness for CLAIM C8 at a concrete input: four inserts force the first
split and land in the second shape. -/
theorem tree_two_shapes_witness :
    ShapeB (insertAll newTree [10, 20, 30, 40]) := by
  rcases tree_two_shapes [10, 20, 30, 40] with h | h
  · exact absurd h (by decide)
  · exact h

/-- CLAIM C4, amended: after any sequence of inserts from a fresh tree,
every allocated page whose image is a leaf keeps its occupied key prefix
in NON-DECREASING (not strictly ascending: duplicates are kept) sorted
order, and its key count never exceeds MAX_KEYS. -/
theorem leaf_keys_sorted_bounded (ks : List Int) (k : Nat)
    (hk : k < (insertAll newTree ks).buf.nextPageID.toNat)
    (hleaf : (pageContent (insertAll newTree ks).buf (k : Int)).isLeaf
      = true) :
    (pageContent (insertAll newTree ks).buf (k : Int)).numKeys ≤ MAX_KEYS ∧
    List.Sorted (fun a b => a ≤ b)
      ((pageContent (insertAll newTree ks).buf (k : Int)).keys.take
        (pageContent (insertAll newTree ks).buf (k : Int)).numKeys) := by
  obtain ⟨hg, hO, hshape⟩ := insertAll_treeInv ks
  by_cases hkr : (k : Int) = (insertAll newTree ks).rootPage
  · cases hshape with
    | inl hA =>
      rw [hkr, hA.1]
      exact ⟨hA.2.2.1.2.1, hA.2.2.1.2.2.2.2⟩
    | inr hB =>
      rw [hkr, hB.1] at hleaf
      rw [hB.2.2.1.1] at hleaf
      exact absurd hleaf Bool.false_ne_true
  · have h := hO k hk hkr
    exact ⟨h.1.2.1, h.1.2.2.2.2⟩

/-- Witness for the amended CLAIM C4 at a concrete input. -/
theorem leaf_keys_sorted_bounded_witness :
    (pageContent (insertAll newTree [10]).buf 0).numKeys ≤ MAX_KEYS ∧
    List.Sorted (fun a b => a ≤ b)
      ((pageContent (insertAll newTree [10]).buf 0).keys.take
        (pageContent (insertAll newTree [10]).buf 0).numKeys) :=
  leaf_keys_sorted_bounded [10] 0 (by decide) (by decide)

/-- CLAIM C4 as literally stated is false: inserting 10 and then 10 again
leaves leaf page 0 holding the occupied prefix [10, 10], which is sorted
but NOT strictly ascending. -/
theorem leaf_strict_order_counterexample :
    (pageContent dupTree.buf 0).isLeaf = true ∧
    (pageContent dupTree.buf 0).keys.take (pageContent dupTree.buf 0).numKeys
      = [10, 10] ∧
    ¬ List.Sorted (fun a b => a < b)
      ((pageContent dupTree.buf 0).keys.take
        (pageContent dupTree.buf 0).numKeys) := by
  decide

/-- CLAIM C10: no insert ever updates a node's parentPage or nextLeaf after
the node is first initialized.  Page 0 keeps the constructor's parentPage
-1 and nextLeaf 0 forever; every other allocated page — the split siblings
and the new root — keeps the zero-fill value 0 in both fields (not the -1
marker), so in particular the children of a newly created root are never
re-pointed at it. -/
theorem parent_links_never_updated (ks : List Int) :
    (pageContent (insertAll newTree ks).buf 0).parentPage = -1 ∧
    (pageContent (insertAll newTree ks).buf 0).nextLeaf = 0 ∧
    ∀ k : Nat, k < (insertAll newTree ks).buf.nextPageID.toNat →
      (k : Int) ≠ 0 →
      (pageContent (insertAll newTree ks).buf (k : Int)).parentPage = 0 ∧
      (pageContent (insertAll newTree ks).buf (k : Int)).nextLeaf = 0 := by
  obtain ⟨hg, hO, hshape⟩ := insertAll_treeInv ks
  refine ⟨?_, ?_, ?_⟩
  · cases hshape with
    | inl hA => exact hA.2.2.2.1
    | inr hB => exact hB.2.2.2.2.1
  · cases hshape with
    | inl hA => exact hA.2.2.2.2
    | inr hB => exact hB.2.2.2.2.2.1
  · intro k hk hk0
    by_cases hkr : (k : Int) = (insertAll newTree ks).rootPage
    · cases hshape with
      | inl hA =>
        rw [hA.1] at hkr
        exact absurd hkr hk0
      | inr hB =>
        rw [hkr, hB.1]
        exact ⟨hB.2.2.1.2.2.2.2.2.2.1, hB.2.2.1.2.2.2.2.2.2.2⟩
    · exact (hO k hk hkr).2 hk0

/-- Witness for CLAIM C10 at a concrete input: after the first split the
new root page 2 carries the zero-fill links, not -1. -/
theorem parent_links_never_updated_witness :
    (pageContent (insertAll newTree [10, 20, 30, 40]).buf 2).parentPage = 0 ∧
    (pageContent (insertAll newTree [10, 20, 30, 40]).buf 2).nextLeaf = 0 :=
  (parent_links_never_updated [10, 20, 30, 40]).2.2 2 (by decide) (by decide)
